import Mathlib

/-!
The program co2monitor: device-to-metric binding and sampling loop.

A shallow embedding of `main.go` (function `measure`) together with the
library calls it makes:

* `crypto/sha1.Sum` and the `%x` verb of `fmt.Sprintf`, which build the
  metric names (lines 59-70);
* the device transport `meter.Open` / `meter.Read`, taken as an arbitrary
  oracle (`Transport`);
* the Prometheus default registry (`NewGauge`, `MustRegister`, `Gauge.Set`).

`measure` never returns: it either ends the process (`log.Fatalf`, a panic of
`MustRegister`) or loops for ever.  The big-step functions below therefore
take the number of iterations of the outer `for` that are observed, and the
small-step function `step` takes one library call of the loop at a time.
-/

namespace Co2monitor

/-! ## Bytes, SHA-1 and hexadecimal rendering -/

/-- A Go `byte`. -/
abbrev Byte := Fin 256

/-- The value of `sha1.Sum`: a `[20]byte` array. -/
abbrev Digest := { l : List Byte // l.length = 20 }

namespace sha1

/-- Rotate a 32-bit word left by `n` bits (`bits.RotateLeft32`). -/
def rotl (n x : Nat) : Nat := ((x <<< n) ||| (x >>> (32 - n))) % 2 ^ 32

/-- Addition of `uint32` values. -/
def add32 (x y : Nat) : Nat := (x + y) % 2 ^ 32

/-- Message padding: the byte 0x80, zero bytes up to 56 modulo 64, then the
bit length of the message as a 64-bit big-endian integer. -/
def pad (msg : List Nat) : List Nat :=
  let len := msg.length
  let zeros := (119 - len % 64) % 64
  let bits := (len * 8) % 2 ^ 64
  msg ++ 0x80 :: List.replicate zeros 0 ++
    (List.range 8).map (fun i => (bits >>> (8 * (7 - i))) % 256)

/-- Big-endian 32-bit words of a block. -/
def beWords : List Nat → List Nat
  | a :: b :: c :: d :: rest => (a <<< 24 ||| b <<< 16 ||| c <<< 8 ||| d) :: beWords rest
  | _ => []

/-- Message schedule: `n` further words, each the rotated xor of the words
3, 8, 14 and 16 places back. -/
def expand : Nat → List Nat → List Nat
  | 0, w => w
  | n + 1, w =>
    let t := w.length
    expand n (w ++ [rotl 1 (w.getD (t - 3) 0 ^^^ w.getD (t - 8) 0 ^^^
      w.getD (t - 14) 0 ^^^ w.getD (t - 16) 0)])

/-- The five chaining words `h[0..4]` of the digest state. -/
structure Chain where
  h0 : Nat
  h1 : Nat
  h2 : Nat
  h3 : Nat
  h4 : Nat
deriving DecidableEq, Repr

/-- Initial chaining value. -/
def init : Chain := ⟨0x67452301, 0xEFCDAB89, 0x98BADCFE, 0x10325476, 0xC3D2E1F0⟩

/-- One of the 80 rounds; `tw` is the round number and its schedule word. -/
def round (s : Chain) (tw : Nat × Nat) : Chain :=
  let t := tw.1
  let f :=
    if t < 20 then (s.h1 &&& s.h2) ||| ((s.h1 ^^^ 0xFFFFFFFF) &&& s.h3)
    else if t < 40 then s.h1 ^^^ s.h2 ^^^ s.h3
    else if t < 60 then (s.h1 &&& s.h2) ||| (s.h1 &&& s.h3) ||| (s.h2 &&& s.h3)
    else s.h1 ^^^ s.h2 ^^^ s.h3
  let k :=
    if t < 20 then 0x5A827999 else if t < 40 then 0x6ED9EBA1
    else if t < 60 then 0x8F1BBCDC else 0xCA62C1D6
  ⟨add32 (add32 (add32 (add32 (rotl 5 s.h0) f) s.h4) tw.2) k,
    s.h0, rotl 30 s.h1, s.h2, s.h3⟩

/-- Compression of one 64-byte block. -/
def block (h : Chain) (p : List Nat) : Chain :=
  let w := expand 64 (beWords p)
  let r := ((List.range 80).zip w).foldl round h
  ⟨add32 h.h0 r.h0, add32 h.h1 r.h1, add32 h.h2 r.h2, add32 h.h3 r.h3, add32 h.h4 r.h4⟩

/-- Compression of `n` consecutive blocks. -/
def blocks : Nat → Chain → List Nat → Chain
  | 0, h, _ => h
  | n + 1, h, p => blocks n (block h (p.take 64)) (p.drop 64)

/-- The four bytes of a 32-bit word, most significant first. -/
def wordBytes (x : Nat) : List Byte :=
  [Fin.ofNat (x >>> 24), Fin.ofNat (x >>> 16), Fin.ofNat (x >>> 8), Fin.ofNat x]

/-- The function `sha1.Sum(data)` of the Go standard library (FIPS 180-4). -/
def Sum (data : List Byte) : Digest :=
  let p := pad (data.map Fin.val)
  let h := blocks (p.length / 64) init p
  ⟨wordBytes h.h0 ++ wordBytes h.h1 ++ wordBytes h.h2 ++ wordBytes h.h3 ++ wordBytes h.h4,
    by simp [wordBytes]⟩

end sha1

/-- A lowercase hexadecimal digit. -/
def hexDigit (n : Nat) : Char := "0123456789abcdef".toList.getD n '0'

/-- The two hexadecimal digits of a byte. -/
def hexByte (b : Byte) : List Char := [hexDigit (b.val / 16), hexDigit (b.val % 16)]

/-- The verb `%x` of `fmt.Sprintf` on a byte array: two lowercase hexadecimal
digits per byte, no separator. -/
def hex : List Byte → List Char
  | [] => []
  | b :: bs => hexByte b ++ hex bs

/-- The text `fmt.Sprintf("%x", identifier)`. -/
def sprintfX (identifier : Digest) : String := String.mk (hex identifier.val)

/-- The bytes of an ASCII string such as `"/dev/hid0"`. -/
def ascii (s : String) : List Byte := s.toList.map (fun c => Fin.ofNat c.toNat)

/-! ## External interfaces -/

/-- Modelled from the spec: the descriptor type `meter.HidDeviceInfo`, whose
declaration is in the transport package.  It carries the transport path (a Go
string, that is a byte string) and the serial the vendor reports; `measure`
reads only `Path`. -/
structure HidDeviceInfo where
  Path : List Byte
  Serial : List Byte
deriving DecidableEq, Repr

/-- Modelled from the spec: the value of a successful `Read`, a temperature
(`float64`, here any type `F`) and a CO2 level in ppm (`int`). -/
structure Result (F : Type) where
  Temperature : F
  Co2 : Int
deriving DecidableEq, Repr

/-- The device transport, an arbitrary oracle.  `Open k device` is the outcome
of the `k`-th call of `Open` of the process, `Read n source` the outcome of its
`n`-th call of `Read`, issued on the opened meter `source`. -/
structure Transport (M F : Type) where
  Open : Nat → HidDeviceInfo → Except String M
  Read : Nat → M → Except String (Result F)

/-- The fields `Name` and `Help` of `prometheus.GaugeOpts`. -/
structure GaugeOpts where
  Name : String
  Help : String
deriving DecidableEq, Repr

/-- A `prometheus.Gauge`: its options and the value a scrape reports. -/
structure PromGauge (F : Type) where
  opts : GaugeOpts
  value : F
deriving DecidableEq, Repr

/-- The call `prometheus.NewGauge(opts)`: a gauge with value 0. -/
def NewGauge {F : Type} [Zero F] (opts : GaugeOpts) : PromGauge F := ⟨opts, 0⟩

/-- The method `Set` of a `prometheus.Gauge`. -/
def PromGauge.Set {F : Type} (g : PromGauge F) (v : F) : PromGauge F := { g with value := v }

/-- The function `model.IsValidMetricName` of Prometheus, the pattern
`[a-zA-Z_:][a-zA-Z0-9_:]*`. -/
def IsValidMetricName (n : String) : Bool :=
  match n.toList with
  | [] => false
  | c :: cs =>
    (c.isAlpha || c == '_' || c == ':') &&
      cs.all (fun b => b.isAlpha || b == '_' || b == ':' || b.isDigit)

/-- The method `Register` of the default registry, as a function of the names
it holds: a gauge is refused when its name is not a metric name or is already
registered. -/
def Register (registry : List String) (opts : GaugeOpts) : Except String (List String) :=
  if IsValidMetricName opts.Name = false then
    .error "descriptor is invalid"
  else if opts.Name ∈ registry then
    .error "duplicate metrics collector registration attempted"
  else
    .ok (registry ++ [opts.Name])

/-! ## The process -/

/-- The struct `Gauge` (lines 21-25). -/
structure Gauge (M F : Type) where
  temperature : PromGauge F
  co2 : PromGauge F
  source : M
deriving DecidableEq, Repr

/-- A library call issued by `measure`.  `Read i result` is a call of `Read` on
the source of the `i`-th element of `gauges` together with what it returned;
the two `Set` calls name the element whose gauge they write. -/
inductive Call (F : Type) where
  | Open (device : HidDeviceInfo)
  | Register (name : String)
  | Read (i : Nat) (result : Except String (Result F))
  | SetTemperature (i : Nat) (v : F)
  | SetCo2 (i : Nat) (v : F)

/-- The ways `measure` ends the process. -/
inductive Exit where
  /-- The call `log.Fatalf` of line 46. -/
  | openFailed (path : List Byte)
  /-- A panic of `prometheus.MustRegister` (lines 64 and 70). -/
  | registerFailed (name : String)
  /-- The call `log.Fatalf` of line 79. -/
  | readFailed (err : String)
deriving DecidableEq, Repr

/-- The state of the process as seen from `measure`: the names held by the
default registry, the slice `gauges`, the number of `Open` and of `Read` calls
made so far and the calls issued so far, oldest first. -/
structure Proc (M F : Type) where
  registry : List String
  gauges : List (Gauge M F)
  opens : Nat
  reads : Nat
  trace : List (Call F)

/-- Either the process is still running, or it has ended. -/
inductive Outcome (σ : Type) where
  | running (s : σ)
  | exited (e : Exit) (s : σ)

/-- The state from which `measure` starts: `registry` holds the names that
are registered already. -/
def Proc.start {M F : Type} (registry : List String) : Proc M F :=
  ⟨registry, [], 0, 0, []⟩

/-- The options of line 60-63. -/
def temperatureOpts (identifier : Digest) : GaugeOpts :=
  { Name := "meter_" ++ sprintfX identifier ++ "_temperature_celsius"
    Help := "Current temperature in Celsius for device " ++ sprintfX identifier }

/-- The options of line 66-69. -/
def co2Opts (identifier : Digest) : GaugeOpts :=
  { Name := "meter_" ++ sprintfX identifier ++ "_co2_ppm"
    Help := "Current CO2 level (ppm) for device " ++ sprintfX identifier }

/-- The call `prometheus.MustRegister(g)`: it panics when `Register` fails. -/
def MustRegister {M F : Type} (s : Proc M F) (g : PromGauge F) : Outcome (Proc M F) :=
  let s1 := { s with trace := s.trace ++ [Call.Register g.opts.Name] }
  match Register s.registry g.opts with
  | .error _ => .exited (.registerFailed g.opts.Name) s1
  | .ok registry => .running { s1 with registry := registry }

/-- The body of the first loop of `measure` (lines 41-72) for one device. -/
def bindDevice {M F : Type} [Zero F] (T : Transport M F) (s : Proc M F)
    (device : HidDeviceInfo) : Outcome (Proc M F) :=
  let s1 := { s with opens := s.opens + 1, trace := s.trace ++ [Call.Open device] }
  match T.Open s.opens device with
  | .error _ => .exited (.openFailed device.Path) s1
  | .ok source =>
    let identifier := sha1.Sum device.Path
    let temperature : PromGauge F := NewGauge (temperatureOpts identifier)
    match MustRegister s1 temperature with
    | .exited e s2 => .exited e s2
    | .running s2 =>
      let co2 : PromGauge F := NewGauge (co2Opts identifier)
      match MustRegister s2 co2 with
      | .exited e s3 => .exited e s3
      | .running s3 =>
        .running { s3 with gauges := s3.gauges ++ [⟨temperature, co2, source⟩] }

/-- The first loop of `measure` (lines 40-73). -/
def setup {M F : Type} [Zero F] (T : Transport M F) :
    List HidDeviceInfo → Proc M F → Outcome (Proc M F)
  | [], s => .running s
  | device :: rest, s =>
    match bindDevice T s device with
    | .running s1 => setup T rest s1
    | .exited e s1 => .exited e s1

/-- The call `gauge.source.Read()` of line 77 as seen by the process. -/
def Proc.callRead {M F : Type} (s : Proc M F) (i : Nat)
    (result : Except String (Result F)) : Proc M F :=
  { s with reads := s.reads + 1, trace := s.trace ++ [Call.Read i result] }

/-- The call `gauge.temperature.Set` of line 82 on the `i`-th gauge. -/
def Proc.setTemperature {M F : Type} (s : Proc M F) (i : Nat) (v : F) : Proc M F :=
  { s with
    gauges := s.gauges.modify (fun g => { g with temperature := g.temperature.Set v }) i
    trace := s.trace ++ [Call.SetTemperature i v] }

/-- The call `gauge.co2.Set` of line 83 on the `i`-th gauge. -/
def Proc.setCo2 {M F : Type} (s : Proc M F) (i : Nat) (v : F) : Proc M F :=
  { s with
    gauges := s.gauges.modify (fun g => { g with co2 := g.co2.Set v }) i
    trace := s.trace ++ [Call.SetCo2 i v] }

/-- The body of the inner loop (lines 77-83) for the `i`-th gauge; `float64`
is the conversion of line 83. -/
def sampleAt {M F : Type} (T : Transport M F) (float64 : Int → F) (i : Nat)
    (s : Proc M F) : Outcome (Proc M F) :=
  match s.gauges[i]? with
  | none => .running s
  | some gauge =>
    let result := T.Read s.reads gauge.source
    let s1 := s.callRead i result
    match result with
    | .error err => .exited (.readFailed err) s1
    | .ok result =>
      .running ((s1.setTemperature i result.Temperature).setCo2 i (float64 result.Co2))

/-- The inner loop over the indices `is` (line 76). -/
def pass {M F : Type} (T : Transport M F) (float64 : Int → F) :
    List Nat → Proc M F → Outcome (Proc M F)
  | [], s => .running s
  | i :: is, s =>
    match sampleAt T float64 i s with
    | .running s1 => pass T float64 is s1
    | .exited e s1 => .exited e s1

/-- One iteration of the outer loop: the inner loop over all of `gauges`. -/
def iteration {M F : Type} (T : Transport M F) (float64 : Int → F) (s : Proc M F) :
    Outcome (Proc M F) :=
  pass T float64 (List.range s.gauges.length) s

/-- The first `n` iterations of the outer loop (lines 75-85). -/
def loop {M F : Type} (T : Transport M F) (float64 : Int → F) :
    Nat → Proc M F → Outcome (Proc M F)
  | 0, s => .running s
  | n + 1, s =>
    match iteration T float64 s with
    | .running s1 => loop T float64 n s1
    | .exited e s1 => .exited e s1

/-- The function `measure` observed for `n` iterations of its second loop,
started with `registry` as the content of the default registry. -/
def measure {M F : Type} [Zero F] (T : Transport M F) (float64 : Int → F)
    (registry : List String) (deviceInfo : List HidDeviceInfo) (n : Nat) :
    Outcome (Proc M F) :=
  match setup T deviceInfo (Proc.start registry) with
  | .running s => loop T float64 n s
  | .exited e s => .exited e s

/-! ## The second loop, one library call at a time -/

/-- Where the second loop stands: before the `Read` of the `i`-th gauge (or,
past the end of `gauges`, before the next iteration), before one of the two
`Set` calls with the result just read, or ended. -/
inductive Pc (F : Type) where
  | range (i : Nat)
  | temperatureSet (i : Nat) (result : Result F)
  | co2Set (i : Nat) (result : Result F)
  | exited (e : Exit)

/-- A state of the second loop. -/
structure Config (M F : Type) where
  pc : Pc F
  proc : Proc M F

/-- One library call of the second loop. -/
def step {M F : Type} (T : Transport M F) (float64 : Int → F) (c : Config M F) :
    Config M F :=
  match c.pc with
  | .range i =>
    match c.proc.gauges[i]? with
    | none => { c with pc := .range 0 }
    | some gauge =>
      let result := T.Read c.proc.reads gauge.source
      match result with
      | .error err => ⟨.exited (.readFailed err), c.proc.callRead i result⟩
      | .ok r => ⟨.temperatureSet i r, c.proc.callRead i result⟩
  | .temperatureSet i r => ⟨.co2Set i r, c.proc.setTemperature i r.Temperature⟩
  | .co2Set i r => ⟨.range (i + 1), c.proc.setCo2 i (float64 r.Co2)⟩
  | .exited _ => c

/-- The state after `n` library calls. -/
def run {M F : Type} (T : Transport M F) (float64 : Int → F) :
    Nat → Config M F → Config M F
  | 0, c => c
  | n + 1, c => run T float64 n (step T float64 c)

/-- The pair of values a scrape reports for a gauge. -/
def Gauge.published {M F : Type} (g : Gauge M F) : F × F :=
  (g.temperature.value, g.co2.value)

/-! ## Auxiliary definitions for the statements -/

/-- The state an outcome carries. -/
def Outcome.proc {σ : Type} : Outcome σ → σ
  | .running s => s
  | .exited _ s => s

/-- The way the process ended, if it did. -/
def Outcome.exit? {σ : Type} : Outcome σ → Option Exit
  | .running _ => none
  | .exited e _ => some e

/-- The name of the temperature gauge of a device (line 61). -/
def temperatureName (device : HidDeviceInfo) : String :=
  (temperatureOpts (sha1.Sum device.Path)).Name

/-- The name of the CO2 gauge of a device (line 67). -/
def co2Name (device : HidDeviceInfo) : String :=
  (co2Opts (sha1.Sum device.Path)).Name

/-- The names `measure` registers for a list of devices, in order. -/
def metricNames : List HidDeviceInfo → List String
  | [] => []
  | device :: rest => temperatureName device :: co2Name device :: metricNames rest

/-- The element of `gauges` built at lines 41-72 for `device`, opened as
`source`. -/
def newBinding {M F : Type} [Zero F] (device : HidDeviceInfo) (source : M) : Gauge M F :=
  ⟨NewGauge (temperatureOpts (sha1.Sum device.Path)),
    NewGauge (co2Opts (sha1.Sum device.Path)), source⟩

/-- Whether a call is a `Read`. -/
def Call.isRead {F : Type} : Call F → Bool
  | .Read _ _ => true
  | _ => false

/-- A gauge after the two `Set` calls of lines 82-83 with the result `r`. -/
def Gauge.update {M F : Type} (float64 : Int → F) (g : Gauge M F) (r : Result F) :
    Gauge M F :=
  ⟨g.temperature.Set r.Temperature, g.co2.Set (float64 r.Co2), g.source⟩

/-- The state after lines 77-83 ran for the `i`-th gauge and `Read` returned
`r`. -/
def Proc.sampled {M F : Type} (float64 : Int → F) (s : Proc M F) (i : Nat)
    (r : Result F) : Proc M F :=
  ((s.callRead i (.ok r)).setTemperature i r.Temperature).setCo2 i (float64 r.Co2)

/-! ## Scenarios -/

/-- The first device of the scenarios. -/
def hid0 : HidDeviceInfo := ⟨ascii "/dev/hid0", []⟩

/-- The second device of the scenarios. -/
def hid1 : HidDeviceInfo := ⟨ascii "/dev/hid1", []⟩

/-- The conversion `float64(result.Co2)` when gauge values are rationals. -/
def ratOfInt (z : Int) : ℚ := z

/-- A transport on which every `Open` succeeds, with the number of the call
as the opened meter; the meter opened first reads (21.5, 650) and the others
read (22.0, 700). -/
def steady : Transport Nat ℚ :=
  { Open := fun k _ => .ok k
    Read := fun _ m => if m = 0 then .ok ⟨21.5, 650⟩ else .ok ⟨22.0, 700⟩ }

/-- The state after the first loop ran on `hid0` and `hid1` with `steady`. -/
def twoBound : Proc Nat ℚ :=
  { registry := metricNames [hid0, hid1]
    gauges := [newBinding hid0 0, newBinding hid1 1]
    opens := 2
    reads := 0
    trace := [Call.Open hid0, Call.Register (temperatureName hid0),
      Call.Register (co2Name hid0), Call.Open hid1, Call.Register (temperatureName hid1),
      Call.Register (co2Name hid1)] }

/-- A transport whose first `Read` returns (21.5, 650) and whose later reads
fail. -/
def flaky : Transport Nat ℚ :=
  { Open := fun k _ => .ok k
    Read := fun n _ => if n = 0 then .ok ⟨21.5, 650⟩ else .error "read failed" }

/-- A transport on which only the first `Open` succeeds. -/
def busy : Transport Nat ℚ :=
  { Open := fun k _ => if k = 0 then .ok 0 else .error "device busy"
    Read := fun _ _ => .ok ⟨21.5, 650⟩ }

/-- A transport on which no `Open` succeeds. -/
def unplugged : Transport Nat ℚ :=
  { Open := fun _ _ => .error "no such device"
    Read := fun _ _ => .ok ⟨21.5, 650⟩ }

/-- A transport whose first `Read` returns (21.5, 650) and whose later reads
return (22.0, 700). -/
def drifting : Transport Nat ℚ :=
  { Open := fun k _ => .ok k
    Read := fun n _ => if n = 0 then .ok ⟨21.5, 650⟩ else .ok ⟨22.0, 700⟩ }

/-- The state after the first loop ran on `hid0` alone. -/
def oneBound : Proc Nat ℚ :=
  { registry := metricNames [hid0]
    gauges := [newBinding hid0 0]
    opens := 1
    reads := 0
    trace := [Call.Open hid0, Call.Register (temperatureName hid0),
      Call.Register (co2Name hid0)] }

/-- A published pair `p` of binding `k` that belongs to one sample: the pair
of a gauge just created, or the pair of one successful `Read` of binding `k`
recorded in the trace. -/
def FromOneSample {F : Type} [Zero F] (float64 : Int → F) (trace : List (Call F)) (k : Nat)
    (p : F × F) : Prop :=
  p = (0, 0) ∨ ∃ r, Call.Read k (.ok r) ∈ trace ∧ p = (r.Temperature, float64 r.Co2)

/-- The invariant of the second loop: a binding that is not between its two
`Set` calls publishes the pair of one sample; a binding between its two `Set`
calls publishes the temperature just read, its CO2 value still being that of
one earlier sample; and the result held between `Read` and the `Set` calls is
the result of a recorded `Read`. -/
def PairInv {M F : Type} [Zero F] (float64 : Int → F) (c : Config M F) : Prop :=
  (∀ (k : Nat) g, c.proc.gauges[k]? = some g → (∀ r, c.pc ≠ .co2Set k r) →
    FromOneSample float64 c.proc.trace k g.published) ∧
  (∀ (k : Nat) g r, c.proc.gauges[k]? = some g → c.pc = .co2Set k r →
    g.temperature.value = r.Temperature ∧
      ∃ t0, FromOneSample float64 c.proc.trace k (t0, g.co2.value)) ∧
  (∀ i r, c.pc = .temperatureSet i r ∨ c.pc = .co2Set i r →
    Call.Read i (.ok r) ∈ c.proc.trace)

/-- The effect of one recorded call on the pair that binding `k` last
sampled: a successful `Read` of binding `k` replaces it, any other call
leaves it. -/
def Call.sample {F : Type} (float64 : Int → F) (k : Nat) (p : F × F) : Call F → F × F
  | .Read i (.ok r) => if i = k then (r.Temperature, float64 r.Co2) else p
  | _ => p

/-- The pair of the most recent successful `Read` of binding `k` recorded in
a trace, or the pair of a gauge just created when there is none. -/
def lastSample {F : Type} [Zero F] (float64 : Int → F) (trace : List (Call F)) (k : Nat) :
    F × F :=
  trace.foldl (Call.sample float64 k) (0, 0)

/-- The exact invariant of the second loop.  A binding that is neither
between its `Read` and its first `Set` nor between its two `Set` calls
publishes the pair of its most recent successful `Read`; between the `Read`
and the first `Set` it still publishes the pair sampled before that `Read`;
between the two `Set` calls it publishes the temperature just read together
with the CO2 value sampled before that `Read`. -/
def SampleInv {M F : Type} [Zero F] (float64 : Int → F) (c : Config M F) : Prop :=
  (∀ (k : Nat) g, c.proc.gauges[k]? = some g → (∀ r, c.pc ≠ .co2Set k r) →
    (∀ r, c.pc ≠ .temperatureSet k r) →
    g.published = lastSample float64 c.proc.trace k) ∧
  (∀ (k : Nat) g r, c.proc.gauges[k]? = some g → c.pc = .temperatureSet k r →
    ∃ before, c.proc.trace = before ++ [Call.Read k (.ok r)] ∧
      g.published = lastSample float64 before k) ∧
  (∀ (k : Nat) g r, c.proc.gauges[k]? = some g → c.pc = .co2Set k r →
    ∃ before, c.proc.trace =
        before ++ [Call.Read k (.ok r), Call.SetTemperature k r.Temperature] ∧
      g.published = (r.Temperature, (lastSample float64 before k).2))

/-! ## Rendering of the identifier -/

theorem hex_length (bs : List Byte) : (hex bs).length = 2 * bs.length := by
  induction bs with
  | nil => rfl
  | cons b bs ih => simp [hex, hexByte, ih]; omega

theorem hexDigit_mem (n : Fin 16) : hexDigit n.val ∈ "0123456789abcdef".toList := by
  revert n; decide

theorem hexDigit_inj : ∀ a b : Fin 16, hexDigit a.val = hexDigit b.val → a = b := by
  decide

theorem hexByte_inj (a b : Byte) (h : hexByte a = hexByte b) : a = b := by
  simp only [hexByte, List.cons.injEq, and_true] at h
  have h1 := hexDigit_inj ⟨a.val / 16, by omega⟩ ⟨b.val / 16, by omega⟩ h.1
  have h2 := hexDigit_inj ⟨a.val % 16, by omega⟩ ⟨b.val % 16, by omega⟩ h.2
  simp only [Fin.mk.injEq] at h1 h2
  apply Fin.ext
  omega

theorem hex_injective : ∀ a b : List Byte, hex a = hex b → a = b
  | [], [], _ => rfl
  | [], b :: bs, h => by simp [hex, hexByte] at h
  | a :: as, [], h => by simp [hex, hexByte] at h
  | a :: as, b :: bs, h => by
    simp only [hex, hexByte, List.cons_append, List.nil_append, List.cons.injEq] at h
    have hab : a = b := hexByte_inj a b (by simp [hexByte, h.1, h.2.1])
    rw [hab, hex_injective as bs h.2.2]

theorem hex_chars (bs : List Byte) : ∀ c ∈ hex bs, c ∈ "0123456789abcdef".toList := by
  induction bs with
  | nil => simp [hex]
  | cons b bs ih =>
    intro c hc
    simp only [hex, hexByte, List.cons_append, List.nil_append, List.mem_cons] at hc
    rcases hc with h | h | h
    · rw [h]; exact hexDigit_mem ⟨b.val / 16, by omega⟩
    · rw [h]; exact hexDigit_mem ⟨b.val % 16, by omega⟩
    · exact ih c h

theorem sprintfX_length (identifier : Digest) : (sprintfX identifier).length = 40 := by
  simp [sprintfX, String.length, hex_length, identifier.property]

theorem sprintfX_injective (a b : Digest) (h : sprintfX a = sprintfX b) : a = b := by
  exact Subtype.ext (hex_injective _ _ (congrArg String.data h))

theorem temperatureName_data (identifier : Digest) :
    (temperatureOpts identifier).Name.data =
      "meter_".data ++ (hex identifier.val ++ "_temperature_celsius".data) := by
  simp [temperatureOpts, sprintfX, String.data_append]

theorem co2Name_data (identifier : Digest) :
    (co2Opts identifier).Name.data =
      "meter_".data ++ (hex identifier.val ++ "_co2_ppm".data) := by
  simp [co2Opts, sprintfX, String.data_append]

theorem temperatureName_injective (a b : Digest)
    (h : (temperatureOpts a).Name = (temperatureOpts b).Name) : a = b := by
  have hd := congrArg String.data h
  rw [temperatureName_data, temperatureName_data] at hd
  exact Subtype.ext (hex_injective _ _ (List.append_cancel_right (List.append_cancel_left hd)))

theorem co2Name_injective (a b : Digest)
    (h : (co2Opts a).Name = (co2Opts b).Name) : a = b := by
  have hd := congrArg String.data h
  rw [co2Name_data, co2Name_data] at hd
  exact Subtype.ext (hex_injective _ _ (List.append_cancel_right (List.append_cancel_left hd)))

theorem temperatureName_ne_co2Name (a b : Digest) :
    (temperatureOpts a).Name ≠ (co2Opts b).Name := by
  intro h
  have hd := congrArg (fun s => s.data.reverse.head?) h
  simp only [temperatureName_data, co2Name_data, List.reverse_append] at hd
  have e1 : "_temperature_celsius".data.reverse = 's' :: "_temperature_celsiu".data.reverse := rfl
  have e2 : "_co2_ppm".data.reverse = 'm' :: "_co2_pp".data.reverse := rfl
  rw [e1, e2] at hd
  simp at hd

theorem hexdigit_lower_or_digit :
    ∀ c ∈ "0123456789abcdef".toList, (c.isLower || c.isDigit) = true := by
  decide

theorem temperatureName_chars (identifier : Digest) :
    ∀ c ∈ (temperatureOpts identifier).Name.toList,
      (c.isLower || c.isDigit || c == '_') = true := by
  intro c hc
  rw [String.toList, temperatureName_data] at hc
  simp only [List.mem_append] at hc
  rcases hc with h | h | h
  · revert c; decide
  · have := hexdigit_lower_or_digit c (hex_chars _ c h)
    simp [this]
  · revert c; decide

theorem co2Name_chars (identifier : Digest) :
    ∀ c ∈ (co2Opts identifier).Name.toList,
      (c.isLower || c.isDigit || c == '_') = true := by
  intro c hc
  rw [String.toList, co2Name_data] at hc
  simp only [List.mem_append] at hc
  rcases hc with h | h | h
  · revert c; decide
  · have := hexdigit_lower_or_digit c (hex_chars _ c h)
    simp [this]
  · revert c; decide

theorem lower_isAlpha (c : Char) (h : c.isLower = true) : c.isAlpha = true := by
  simp [Char.isAlpha, h]

theorem valid_of_chars (n : String) (rest : List Char)
    (hn : n.toList = 'm' :: rest)
    (hc : ∀ c ∈ n.toList, (c.isLower || c.isDigit || c == '_') = true) :
    IsValidMetricName n = true := by
  unfold IsValidMetricName
  rw [hn]
  simp only [Bool.and_eq_true, List.all_eq_true]
  refine ⟨by decide, ?_⟩
  intro b hb
  have := hc b (by rw [hn]; exact List.mem_cons_of_mem _ hb)
  simp only [Bool.or_eq_true] at this ⊢
  rcases this with (h | h) | h
  · exact Or.inl (Or.inl (Or.inl (lower_isAlpha b h)))
  · exact Or.inr h
  · exact Or.inl (Or.inl (Or.inr h))

theorem temperatureName_valid (identifier : Digest) :
    IsValidMetricName (temperatureOpts identifier).Name = true :=
  valid_of_chars _ ("eter_".data ++ (hex identifier.val ++ "_temperature_celsius".data))
    (by rw [String.toList, temperatureName_data]; rfl) (temperatureName_chars identifier)

theorem co2Name_valid (identifier : Digest) :
    IsValidMetricName (co2Opts identifier).Name = true :=
  valid_of_chars _ ("eter_".data ++ (hex identifier.val ++ "_co2_ppm".data))
    (by rw [String.toList, co2Name_data]; rfl) (co2Name_chars identifier)

theorem temperatureName_length (identifier : Digest) :
    (temperatureOpts identifier).Name.length = 66 := by
  rw [String.length, temperatureName_data]
  simp only [List.length_append, hex_length, identifier.property]
  rfl

theorem co2Name_length (identifier : Digest) :
    (co2Opts identifier).Name.length = 54 := by
  rw [String.length, co2Name_data]
  simp only [List.length_append, hex_length, identifier.property]
  rfl
/-! ## Binding setup -/

theorem Register_fresh (registry : List String) (opts : GaugeOpts)
    (hv : IsValidMetricName opts.Name = true) (hn : opts.Name ∉ registry) :
    Register registry opts = .ok (registry ++ [opts.Name]) := by
  simp [Register, hv, hn]

theorem Register_dup (registry : List String) (opts : GaugeOpts)
    (hv : IsValidMetricName opts.Name = true) (hn : opts.Name ∈ registry) :
    ∃ err, Register registry opts = .error err := by
  simp [Register, hv, hn]

theorem bindDevice_openFailed {M F : Type} [Zero F] (T : Transport M F) (s : Proc M F)
    (device : HidDeviceInfo) (err : String) (h : T.Open s.opens device = .error err) :
    bindDevice T s device = .exited (.openFailed device.Path)
      { s with opens := s.opens + 1, trace := s.trace ++ [Call.Open device] } := by
  simp [bindDevice, h]

theorem bindDevice_temperatureDup {M F : Type} [Zero F] (T : Transport M F) (s : Proc M F)
    (device : HidDeviceInfo) (source : M) (h : T.Open s.opens device = .ok source)
    (hn : temperatureName device ∈ s.registry) :
    bindDevice T s device = .exited (.registerFailed (temperatureName device))
      { s with
        opens := s.opens + 1
        trace := s.trace ++ [Call.Open device, Call.Register (temperatureName device)] } := by
  obtain ⟨err, he⟩ := Register_dup s.registry (temperatureOpts (sha1.Sum device.Path))
    (temperatureName_valid _) hn
  simp [bindDevice, h, MustRegister, NewGauge, he, temperatureName]

theorem bindDevice_co2Dup {M F : Type} [Zero F] (T : Transport M F) (s : Proc M F)
    (device : HidDeviceInfo) (source : M) (h : T.Open s.opens device = .ok source)
    (hn : temperatureName device ∉ s.registry) (hc : co2Name device ∈ s.registry) :
    bindDevice T s device = .exited (.registerFailed (co2Name device))
      { s with
        registry := s.registry ++ [temperatureName device]
        opens := s.opens + 1
        trace := s.trace ++ [Call.Open device, Call.Register (temperatureName device),
          Call.Register (co2Name device)] } := by
  have ht := Register_fresh s.registry (temperatureOpts (sha1.Sum device.Path))
    (temperatureName_valid _) hn
  obtain ⟨err, he⟩ := Register_dup (s.registry ++ [temperatureName device])
    (co2Opts (sha1.Sum device.Path)) (co2Name_valid _) (List.mem_append_left _ hc)
  simp only [temperatureName] at he
  simp [bindDevice, h, MustRegister, NewGauge, he, ht, temperatureName, co2Name]

theorem bindDevice_ok {M F : Type} [Zero F] (T : Transport M F) (s : Proc M F)
    (device : HidDeviceInfo) (source : M) (h : T.Open s.opens device = .ok source)
    (hn : temperatureName device ∉ s.registry) (hc : co2Name device ∉ s.registry) :
    bindDevice T s device = .running
      { registry := s.registry ++ [temperatureName device, co2Name device]
        gauges := s.gauges ++ [newBinding device source]
        opens := s.opens + 1
        reads := s.reads
        trace := s.trace ++ [Call.Open device, Call.Register (temperatureName device),
          Call.Register (co2Name device)] } := by
  have ht := Register_fresh s.registry (temperatureOpts (sha1.Sum device.Path))
    (temperatureName_valid _) hn
  have hne : co2Name device ∉ s.registry ++ [temperatureName device] := by
    simp only [List.mem_append, List.mem_singleton, not_or]
    exact ⟨hc, fun e => temperatureName_ne_co2Name _ _ e.symm⟩
  have hr := Register_fresh (s.registry ++ [temperatureName device])
    (co2Opts (sha1.Sum device.Path)) (co2Name_valid _) hne
  simp only [temperatureName] at hr
  simp [bindDevice, h, MustRegister, NewGauge, hr, ht, temperatureName, co2Name, newBinding]

theorem bindDevice_cases {M F : Type} [Zero F] (T : Transport M F) (s : Proc M F)
    (device : HidDeviceInfo) :
    (∃ err, T.Open s.opens device = .error err ∧
      bindDevice T s device = .exited (.openFailed device.Path)
        { s with opens := s.opens + 1, trace := s.trace ++ [Call.Open device] }) ∨
    (∃ source, T.Open s.opens device = .ok source ∧ temperatureName device ∈ s.registry ∧
      bindDevice T s device = .exited (.registerFailed (temperatureName device))
        { s with
          opens := s.opens + 1
          trace := s.trace ++ [Call.Open device, Call.Register (temperatureName device)] }) ∨
    (∃ source, T.Open s.opens device = .ok source ∧ temperatureName device ∉ s.registry ∧
      co2Name device ∈ s.registry ∧
      bindDevice T s device = .exited (.registerFailed (co2Name device))
        { s with
          registry := s.registry ++ [temperatureName device]
          opens := s.opens + 1
          trace := s.trace ++ [Call.Open device, Call.Register (temperatureName device),
            Call.Register (co2Name device)] }) ∨
    (∃ source, T.Open s.opens device = .ok source ∧ temperatureName device ∉ s.registry ∧
      co2Name device ∉ s.registry ∧
      bindDevice T s device = .running
        { registry := s.registry ++ [temperatureName device, co2Name device]
          gauges := s.gauges ++ [newBinding device source]
          opens := s.opens + 1
          reads := s.reads
          trace := s.trace ++ [Call.Open device, Call.Register (temperatureName device),
            Call.Register (co2Name device)] }) := by
  cases h : T.Open s.opens device with
  | error err => exact Or.inl ⟨err, rfl, bindDevice_openFailed T s device err h⟩
  | ok source =>
    by_cases hn : temperatureName device ∈ s.registry
    · exact Or.inr (Or.inl ⟨source, rfl, hn, bindDevice_temperatureDup T s device source h hn⟩)
    · by_cases hc : co2Name device ∈ s.registry
      · exact Or.inr (Or.inr (Or.inl
          ⟨source, rfl, hn, hc, bindDevice_co2Dup T s device source h hn hc⟩))
      · exact Or.inr (Or.inr (Or.inr
          ⟨source, rfl, hn, hc, bindDevice_ok T s device source h hn hc⟩))

theorem setup_cons_exited {M F : Type} [Zero F] (T : Transport M F) (s s1 : Proc M F)
    (device : HidDeviceInfo) (rest : List HidDeviceInfo) (e : Exit)
    (h : bindDevice T s device = .exited e s1) :
    setup T (device :: rest) s = .exited e s1 := by
  simp only [setup, h]

theorem setup_cons_running {M F : Type} [Zero F] (T : Transport M F) (s s1 : Proc M F)
    (device : HidDeviceInfo) (rest : List HidDeviceInfo)
    (h : bindDevice T s device = .running s1) :
    setup T (device :: rest) s = setup T rest s1 := by
  simp only [setup, h]

/-- What every outcome of the first loop keeps: no `Read` is issued, the
registry stays free of duplicates, and the process does not end on a failed
`Read`. -/
theorem setup_invariant {M F : Type} [Zero F] (T : Transport M F) :
    ∀ (deviceInfo : List HidDeviceInfo) (s : Proc M F),
      (setup T deviceInfo s).proc.reads = s.reads ∧
      (∃ ext, (setup T deviceInfo s).proc.trace = s.trace ++ ext ∧
        ∀ c ∈ ext, c.isRead = false) ∧
      (s.registry.Nodup → (setup T deviceInfo s).proc.registry.Nodup) ∧
      (∀ err, (setup T deviceInfo s).exit? ≠ some (.readFailed err)) := by
  intro deviceInfo
  induction deviceInfo with
  | nil =>
    intro s
    exact ⟨rfl, ⟨[], by simp [setup, Outcome.proc], by simp⟩, fun h => h,
      by simp [setup, Outcome.exit?]⟩
  | cons device rest ih =>
    intro s
    rcases bindDevice_cases T s device with ⟨err, -, hb⟩ | ⟨m, -, -, hb⟩ | ⟨m, -, hn, -, hb⟩ |
      ⟨m, -, hn, hc, hb⟩
    · rw [setup_cons_exited T s _ device rest _ hb]
      exact ⟨rfl, ⟨_, rfl, by simp [Call.isRead]⟩, fun h => h, by simp [Outcome.exit?]⟩
    · rw [setup_cons_exited T s _ device rest _ hb]
      exact ⟨rfl, ⟨_, rfl, by simp [Call.isRead]⟩, fun h => h, by simp [Outcome.exit?]⟩
    · rw [setup_cons_exited T s _ device rest _ hb]
      refine ⟨rfl, ⟨_, rfl, by simp [Call.isRead]⟩, fun h => ?_, by simp [Outcome.exit?]⟩
      exact List.nodup_append.mpr ⟨h, List.nodup_singleton _, by simpa using hn⟩
    · rw [setup_cons_running T s _ device rest hb]
      obtain ⟨h1, ⟨ext, h2, h3⟩, h4, h5⟩ := ih
        { registry := s.registry ++ [temperatureName device, co2Name device]
          gauges := s.gauges ++ [newBinding device m]
          opens := s.opens + 1
          reads := s.reads
          trace := s.trace ++ [Call.Open device, Call.Register (temperatureName device),
            Call.Register (co2Name device)] }
      refine ⟨h1, ⟨[Call.Open device, Call.Register (temperatureName device),
        Call.Register (co2Name device)] ++ ext, by rw [h2]; simp, ?_⟩, fun h => h4 ?_, h5⟩
      · intro c hc'
        rcases List.mem_append.mp hc' with h | h
        · simp only [List.mem_cons, List.mem_singleton, List.not_mem_nil, or_false] at h
          rcases h with rfl | rfl | rfl <;> rfl
        · exact h3 c h
      · refine List.nodup_append.mpr ⟨h, ?_, ?_⟩
        · simp only [List.nodup_cons, List.mem_singleton, List.not_mem_nil, not_false_eq_true,
            List.nodup_nil, and_true]
          exact temperatureName_ne_co2Name _ _
        · intro a ha hb'
          simp only [List.mem_cons, List.mem_singleton, List.not_mem_nil, or_false] at hb'
          rcases hb' with e | e
          · exact hn (e ▸ ha)
          · exact hc (e ▸ ha)

theorem metricNames_append (a b : List HidDeviceInfo) :
    metricNames (a ++ b) = metricNames a ++ metricNames b := by
  induction a with
  | nil => rfl
  | cons d rest ih => simp [metricNames, ih]

theorem co2Name_mem_metricNames (device : HidDeviceInfo) (ds : List HidDeviceInfo)
    (h : co2Name device ∈ metricNames ds) : temperatureName device ∈ metricNames ds := by
  induction ds with
  | nil => simp [metricNames] at h
  | cons d rest ih =>
    simp only [metricNames, List.mem_cons] at h ⊢
    rcases h with h | h | h
    · exact absurd h.symm (temperatureName_ne_co2Name _ _)
    · have e := co2Name_injective _ _ h
      exact Or.inl (by simp only [temperatureName, e])
    · exact Or.inr (Or.inr (ih h))

/-- When the first loop completes, every `Open` succeeded and no name
collided. -/
theorem setup_running_only_if {M F : Type} [Zero F] (T : Transport M F) :
    ∀ (deviceInfo : List HidDeviceInfo) (s s1 : Proc M F),
      setup T deviceInfo s = .running s1 →
      (∀ k d, deviceInfo[k]? = some d → ∃ m, T.Open (s.opens + k) d = .ok m) ∧
      (metricNames deviceInfo).Nodup ∧ (∀ x ∈ metricNames deviceInfo, x ∉ s.registry) := by
  intro deviceInfo
  induction deviceInfo with
  | nil =>
    intro s s1 _
    exact ⟨by simp, by simp [metricNames], by simp [metricNames]⟩
  | cons device rest ih =>
    intro s s1 h
    rcases bindDevice_cases T s device with ⟨err, -, hb⟩ | ⟨m, -, -, hb⟩ | ⟨m, -, hn, -, hb⟩ |
      ⟨m, ho, hn, hc, hb⟩
    · rw [setup_cons_exited T s _ device rest _ hb] at h; cases h
    · rw [setup_cons_exited T s _ device rest _ hb] at h; cases h
    · rw [setup_cons_exited T s _ device rest _ hb] at h; cases h
    · rw [setup_cons_running T s _ device rest hb] at h
      obtain ⟨h1, h2, h3⟩ := ih _ s1 h
      refine ⟨?_, ?_, ?_⟩
      · intro k d hk
        cases k with
        | zero =>
          simp only [List.getElem?_cons_zero, Option.some.injEq] at hk
          exact ⟨m, by rw [← hk]; exact ho⟩
        | succ k =>
          simp only [List.getElem?_cons_succ] at hk
          obtain ⟨m1, hm1⟩ := h1 k d hk
          exact ⟨m1, by rw [← hm1]; congr 1; simp only []; omega⟩
      · simp only [metricNames, List.nodup_cons, List.mem_cons, not_or]
        refine ⟨⟨temperatureName_ne_co2Name _ _, fun hx => h3 _ hx ?_⟩,
          fun hx => h3 _ hx ?_, h2⟩
        · simp
        · simp
      · intro x hx
        simp only [metricNames, List.mem_cons] at hx
        rcases hx with e | e | e
        · rw [e]; exact hn
        · rw [e]; exact hc
        · intro hx'
          exact h3 x e (List.mem_append_left _ hx')

/-- When every `Open` succeeds and no name collides, the first loop completes
and appends one element per device, in order. -/
theorem setup_running {M F : Type} [Zero F] (T : Transport M F) :
    ∀ (deviceInfo : List HidDeviceInfo) (s : Proc M F),
      (∀ k d, deviceInfo[k]? = some d → ∃ m, T.Open (s.opens + k) d = .ok m) →
      (metricNames deviceInfo).Nodup → (∀ x ∈ metricNames deviceInfo, x ∉ s.registry) →
      ∃ s1, setup T deviceInfo s = .running s1 ∧
        s1.gauges.length = s.gauges.length + deviceInfo.length ∧
        (∀ (k : Nat) g, s.gauges[k]? = some g → s1.gauges[k]? = some g) ∧
        (∀ k d, deviceInfo[k]? = some d →
          ∃ m, T.Open (s.opens + k) d = .ok m ∧
            s1.gauges[s.gauges.length + k]? = some (newBinding d m)) ∧
        s1.registry = s.registry ++ metricNames deviceInfo ∧
        s1.opens = s.opens + deviceInfo.length := by
  intro deviceInfo
  induction deviceInfo with
  | nil =>
    intro s _ _ _
    exact ⟨s, rfl, by simp, fun _ _ h => h, by simp, by simp [metricNames], by simp⟩
  | cons device rest ih =>
    intro s ho hnd hf
    obtain ⟨m, hm⟩ := ho 0 device (by simp)
    simp only [metricNames, List.nodup_cons, List.mem_cons, not_or] at hnd
    have hn : temperatureName device ∉ s.registry := hf _ (by simp [metricNames])
    have hc : co2Name device ∉ s.registry := hf _ (by simp [metricNames])
    have hb := bindDevice_ok T s device m hm hn hc
    rw [setup_cons_running T s _ device rest hb]
    obtain ⟨s1, h1, h2, h3, h4, h5, h6⟩ := ih
      { registry := s.registry ++ [temperatureName device, co2Name device]
        gauges := s.gauges ++ [newBinding device m]
        opens := s.opens + 1
        reads := s.reads
        trace := s.trace ++ [Call.Open device, Call.Register (temperatureName device),
          Call.Register (co2Name device)] }
      (fun k d hk => by
        obtain ⟨m1, hm1⟩ := ho (k + 1) d (by simpa using hk)
        exact ⟨m1, by rw [← hm1]; congr 1; simp only []; omega⟩)
      hnd.2.2
      (fun x hx hx' => by
        simp only [List.mem_append, List.mem_cons, List.mem_singleton, List.not_mem_nil,
          or_false] at hx'
        rcases hx' with e | e | e
        · exact hf x (by simp [metricNames, hx]) e
        · exact hnd.1.2 (e ▸ hx)
        · exact hnd.2.1 (e ▸ hx))
    refine ⟨s1, h1, ?_, ?_, ?_, ?_, ?_⟩
    · rw [h2]; simp only [List.length_append, List.length_cons, List.length_nil]; omega
    · intro k g hk
      apply h3
      rw [List.getElem?_append_left (by
        rcases Nat.lt_or_ge k s.gauges.length with h | h
        · exact h
        · rw [List.getElem?_eq_none h] at hk; cases hk)]
      exact hk
    · intro k d hk
      cases k with
      | zero =>
        simp only [List.getElem?_cons_zero, Option.some.injEq] at hk
        refine ⟨m, by rw [← hk]; exact hm, ?_⟩
        rw [← hk]
        apply h3
        simp
      | succ k =>
        simp only [List.getElem?_cons_succ] at hk
        obtain ⟨m1, hm1, hg⟩ := h4 k d hk
        refine ⟨m1, by rw [← hm1]; congr 1; simp only []; omega, ?_⟩
        rw [← hg]; congr 1
        simp only [List.length_append, List.length_cons, List.length_nil]; omega
    · rw [h5]; simp [metricNames]
    · rw [h6]; simp only [List.length_cons]; omega

/-! ## The sampling loop -/

theorem sampleAt_ok {M F : Type} (T : Transport M F) (float64 : Int → F) (i : Nat)
    (s : Proc M F) (g : Gauge M F) (r : Result F) (hg : s.gauges[i]? = some g)
    (hr : T.Read s.reads g.source = .ok r) :
    sampleAt T float64 i s = .running (s.sampled float64 i r) := by
  simp [sampleAt, hg, hr, Proc.sampled]

theorem sampleAt_error {M F : Type} (T : Transport M F) (float64 : Int → F) (i : Nat)
    (s : Proc M F) (g : Gauge M F) (err : String) (hg : s.gauges[i]? = some g)
    (hr : T.Read s.reads g.source = .error err) :
    sampleAt T float64 i s = .exited (.readFailed err) (s.callRead i (.error err)) := by
  simp [sampleAt, hg, hr]

theorem sampled_gauges {M F : Type} (float64 : Int → F) (s : Proc M F) (i : Nat)
    (r : Result F) (k : Nat) :
    (s.sampled float64 i r).gauges[k]? =
      if i = k then (s.gauges[k]?).map (fun g => g.update float64 r) else s.gauges[k]? := by
  simp only [Proc.sampled, Proc.setCo2, Proc.setTemperature, Proc.callRead,
    List.getElem?_modify]
  by_cases h : i = k
  · cases hk : s.gauges[k]? <;> simp [h, hk, Gauge.update]
  · cases hk : s.gauges[k]? <;> simp [h, hk]

theorem sampled_length {M F : Type} (float64 : Int → F) (s : Proc M F) (i : Nat)
    (r : Result F) : (s.sampled float64 i r).gauges.length = s.gauges.length := by
  simp [Proc.sampled, Proc.setCo2, Proc.setTemperature, Proc.callRead]

theorem sampled_reads {M F : Type} (float64 : Int → F) (s : Proc M F) (i : Nat)
    (r : Result F) : (s.sampled float64 i r).reads = s.reads + 1 := rfl

theorem sampled_trace {M F : Type} (float64 : Int → F) (s : Proc M F) (i : Nat)
    (r : Result F) :
    (s.sampled float64 i r).trace =
      s.trace ++ [Call.Read i (.ok r), Call.SetTemperature i r.Temperature,
        Call.SetCo2 i (float64 r.Co2)] := by
  simp [Proc.sampled, Proc.setCo2, Proc.setTemperature, Proc.callRead]

theorem pass_append {M F : Type} (T : Transport M F) (float64 : Int → F) :
    ∀ (a b : List Nat) (s : Proc M F),
      pass T float64 (a ++ b) s =
        match pass T float64 a s with
        | .running s1 => pass T float64 b s1
        | .exited e s1 => .exited e s1
  | [], b, s => rfl
  | i :: a, b, s => by
    simp only [List.cons_append, pass]
    cases sampleAt T float64 i s with
    | running s1 => exact pass_append T float64 a b s1
    | exited e s1 => rfl

/-- The inner loop over the indices `i, ..., i + n - 1` when each `Read`
succeeds. -/
theorem pass_ok {M F : Type} (T : Transport M F) (float64 : Int → F) :
    ∀ (n i : Nat) (s : Proc M F), i + n ≤ s.gauges.length →
      (∀ (k : Nat) g, i ≤ k → k < i + n → s.gauges[k]? = some g →
        ∃ r, T.Read (s.reads + (k - i)) g.source = .ok r) →
      ∃ s1, pass T float64 (List.range' i n) s = .running s1 ∧
        s1.gauges.length = s.gauges.length ∧ s1.reads = s.reads + n ∧
        s1.registry = s.registry ∧ s1.opens = s.opens ∧
        (∃ ext, s1.trace = s.trace ++ ext) ∧
        (∀ (k : Nat), k < i ∨ i + n ≤ k → s1.gauges[k]? = s.gauges[k]?) ∧
        (∀ (k : Nat) g, i ≤ k → k < i + n → s.gauges[k]? = some g →
          ∃ r, T.Read (s.reads + (k - i)) g.source = .ok r ∧
            s1.gauges[k]? = some (g.update float64 r) ∧
            Call.Read k (.ok r) ∈ s1.trace) := by
  intro n
  induction n with
  | zero =>
    intro i s _ _
    exact ⟨s, rfl, rfl, rfl, rfl, rfl, ⟨[], by simp⟩, fun _ _ => rfl,
      fun k g h1 h2 => by omega⟩
  | succ n ih =>
    intro i s hlen hread
    have hi : i < s.gauges.length := by omega
    obtain ⟨r, hr⟩ := hread i s.gauges[i] (le_refl _) (by omega) (List.getElem?_eq_getElem hi)
    simp only [Nat.sub_self, Nat.add_zero] at hr
    have hs := sampleAt_ok T float64 i s _ r (List.getElem?_eq_getElem hi) hr
    obtain ⟨s1, h1, h2, h3, h4, h5, ⟨ext, h6⟩, h7, h8⟩ := ih (i + 1) (s.sampled float64 i r)
      (by rw [sampled_length]; omega)
      (fun k g hk1 hk2 hg => by
        rw [sampled_gauges, if_neg (by omega)] at hg
        obtain ⟨r1, hr1⟩ := hread k g (by omega) (by omega) hg
        exact ⟨r1, by rw [← hr1, sampled_reads]; congr 1; omega⟩)
    refine ⟨s1, ?_, ?_, ?_, h4, h5, ?_, ?_, ?_⟩
    · rw [List.range'_succ]; simp only [pass, hs]; exact h1
    · rw [h2, sampled_length]
    · rw [h3, sampled_reads]; omega
    · exact ⟨_, by rw [h6, sampled_trace, List.append_assoc]⟩
    · intro k hk
      rw [h7 k (by omega), sampled_gauges, if_neg (by omega)]
    · intro k g hk1 hk2 hg
      rcases Nat.eq_or_lt_of_le hk1 with e | hlt
      · subst e
        have hgi : s.gauges[i] = g := by
          rw [List.getElem?_eq_getElem hi] at hg
          exact Option.some.inj hg
        rw [hgi] at hr
        refine ⟨r, by simpa using hr, ?_, ?_⟩
        · rw [h7 i (by omega), sampled_gauges, if_pos rfl, hg]; rfl
        · rw [h6, sampled_trace]; simp
      · have hg1 : (s.sampled float64 i r).gauges[k]? = some g := by
          rw [sampled_gauges, if_neg (by omega)]; exact hg
        obtain ⟨r1, hr1, hg2, ht⟩ := h8 k g (by omega) (by omega) hg1
        exact ⟨r1, by rw [← hr1, sampled_reads]; congr 1; omega, hg2, ht⟩

theorem loop_succ_exited {M F : Type} (T : Transport M F) (float64 : Int → F) (n : Nat)
    (s s1 : Proc M F) (e : Exit) (h : iteration T float64 s = .exited e s1) :
    loop T float64 (n + 1) s = .exited e s1 := by
  simp only [loop, h]

theorem getElem?_some_lt {α : Type} (l : List α) (k : Nat) (a : α) (h : l[k]? = some a) :
    k < l.length := by
  rcases Nat.lt_or_ge k l.length with h1 | h1
  · exact h1
  · rw [List.getElem?_eq_none h1] at h; cases h

theorem loop_no_gauges {M F : Type} (T : Transport M F) (float64 : Int → F)
    (s : Proc M F) (h : s.gauges = []) : ∀ n, loop T float64 n s = .running s
  | 0 => rfl
  | n + 1 => by
    have hit : iteration T float64 s = .running s := by simp [iteration, h, pass]
    simp only [loop, hit]
    exact loop_no_gauges T float64 s h n

theorem run_no_gauges {M F : Type} (T : Transport M F) (float64 : Int → F)
    (s : Proc M F) (h : s.gauges = []) : ∀ n, run T float64 n ⟨.range 0, s⟩ = ⟨.range 0, s⟩
  | 0 => rfl
  | n + 1 => by
    have hst : step T float64 ⟨.range 0, s⟩ = ⟨.range 0, s⟩ := by simp [step, h]
    simp only [run, hst]
    exact run_no_gauges T float64 s h n

/-! ## Outcomes of binding setup -/

theorem setup_exited_facts {M F : Type} [Zero F] (T : Transport M F)
    (deviceInfo : List HidDeviceInfo) (s : Proc M F)
    (h : ∀ s1, setup T deviceInfo s ≠ .running s1) :
    ∃ e s1, setup T deviceInfo s = .exited e s1 ∧ (∀ err, e ≠ .readFailed err) ∧
      s1.reads = s.reads ∧
      (∃ ext, s1.trace = s.trace ++ ext ∧ ∀ c ∈ ext, c.isRead = false) ∧
      (s.registry.Nodup → s1.registry.Nodup) := by
  have hinv := setup_invariant T deviceInfo s
  cases hs : setup T deviceInfo s with
  | running s1 => exact absurd hs (h s1)
  | exited e s1 =>
    rw [hs] at hinv
    obtain ⟨h1, h2, h3, h4⟩ := hinv
    exact ⟨e, s1, rfl, fun err he => h4 err (by rw [he]; rfl), h1, h2, h3⟩

theorem measure_of_setup_exited {M F : Type} [Zero F] (T : Transport M F)
    (float64 : Int → F) (registry : List String) (deviceInfo : List HidDeviceInfo) (n : Nat)
    (e : Exit) (s : Proc M F) (h : setup T deviceInfo (Proc.start registry) = .exited e s) :
    measure T float64 registry deviceInfo n = .exited e s := by
  simp only [measure, h]

theorem setup_append {M F : Type} [Zero F] (T : Transport M F) :
    ∀ (a b : List HidDeviceInfo) (s : Proc M F),
      setup T (a ++ b) s =
        match setup T a s with
        | .running s1 => setup T b s1
        | .exited e s1 => .exited e s1
  | [], b, s => rfl
  | d :: a, b, s => by
    simp only [List.cons_append, setup]
    cases bindDevice T s d with
    | running s1 => exact setup_append T a b s1
    | exited e s1 => rfl

/-! ## Metric names -/

theorem four_names_nodup (a b : Digest) (h : a ≠ b) :
    [(temperatureOpts a).Name, (co2Opts a).Name, (temperatureOpts b).Name,
      (co2Opts b).Name].Nodup := by
  simp only [List.nodup_cons, List.mem_cons, List.mem_singleton, List.not_mem_nil, or_false,
    not_or, not_false_eq_true, List.nodup_nil, and_true]
  exact ⟨⟨temperatureName_ne_co2Name a a, fun e => h (temperatureName_injective a b e),
      temperatureName_ne_co2Name a b⟩,
    ⟨fun e => temperatureName_ne_co2Name b a e.symm, fun e => h (co2Name_injective a b e)⟩,
    temperatureName_ne_co2Name b b⟩

set_option maxRecDepth 100000 in
theorem hid_digests_ne : sha1.Sum hid0.Path ≠ sha1.Sum hid1.Path := by
  decide

set_option maxRecDepth 100000 in
/-- Test vector of FIPS 180: the digest of "abc". -/
theorem sha1_abc :
    sprintfX (sha1.Sum (ascii "abc")) = "a9993e364706816aba3e25717850c26c9cd0d89d" := by
  decide

set_option maxRecDepth 100000 in
/-- Test vector of FIPS 180: the digest of a message of two blocks. -/
theorem sha1_two_blocks :
    sprintfX (sha1.Sum (ascii "abcdbcdecdefdefgefghfghighijhijkijkljklmklmnlmnomnopnopq")) =
      "84983e441c3bd26ebaae4aa1f95129e5e54670f1" := by
  decide

set_option maxRecDepth 100000 in
/-- The names of the gauges of the path "/dev/hid0". -/
theorem hid0_names :
    temperatureName hid0 = "meter_7dc6efb9647b5dc2a2927337870e17715c05be43_temperature_celsius" ∧
    co2Name hid0 = "meter_7dc6efb9647b5dc2a2927337870e17715c05be43_co2_ppm" := by
  decide

/-! ## The sampling loop, one call at a time -/

theorem FromOneSample_mono {F : Type} [Zero F] (float64 : Int → F) (trace ext : List (Call F))
    (k : Nat) (p : F × F) (h : FromOneSample float64 trace k p) :
    FromOneSample float64 (trace ++ ext) k p := by
  rcases h with h | ⟨r, hr, hp⟩
  · exact Or.inl h
  · exact Or.inr ⟨r, List.mem_append_left _ hr, hp⟩

theorem step_range_none {M F : Type} (T : Transport M F) (float64 : Int → F) (i : Nat)
    (proc : Proc M F) (hg : proc.gauges[i]? = none) :
    step T float64 ⟨.range i, proc⟩ = ⟨.range 0, proc⟩ := by
  simp [step, hg]

theorem step_range_error {M F : Type} (T : Transport M F) (float64 : Int → F) (i : Nat)
    (proc : Proc M F) (g : Gauge M F) (err : String) (hg : proc.gauges[i]? = some g)
    (hr : T.Read proc.reads g.source = .error err) :
    step T float64 ⟨.range i, proc⟩ =
      ⟨.exited (.readFailed err), proc.callRead i (.error err)⟩ := by
  simp [step, hg, hr]

theorem step_range_ok {M F : Type} (T : Transport M F) (float64 : Int → F) (i : Nat)
    (proc : Proc M F) (g : Gauge M F) (r : Result F) (hg : proc.gauges[i]? = some g)
    (hr : T.Read proc.reads g.source = .ok r) :
    step T float64 ⟨.range i, proc⟩ = ⟨.temperatureSet i r, proc.callRead i (.ok r)⟩ := by
  simp [step, hg, hr]

theorem PairInv_step {M F : Type} [Zero F] (T : Transport M F) (float64 : Int → F)
    (c : Config M F) (h : PairInv float64 c) : PairInv float64 (step T float64 c) := by
  obtain ⟨pc, proc⟩ := c
  obtain ⟨h1, h2, h3⟩ := h
  cases pc with
  | range i =>
    cases hg : proc.gauges[i]? with
    | none =>
      rw [step_range_none T float64 i proc hg]
      refine ⟨fun k g hk _ => h1 k g hk (fun r hr => by cases hr), ?_, ?_⟩
      · intro k g r _ hpc; cases hpc
      · intro j r hpc; rcases hpc with hpc | hpc <;> cases hpc
    | some gauge =>
      cases hr : T.Read proc.reads gauge.source with
      | error err =>
        rw [step_range_error T float64 i proc gauge err hg hr]
        refine ⟨fun k g hk _ => ?_, ?_, ?_⟩
        · exact FromOneSample_mono float64 _ _ k _ (h1 k g hk (fun r hr => by cases hr))
        · intro k g r _ hpc; cases hpc
        · intro j r hpc; rcases hpc with hpc | hpc <;> cases hpc
      | ok r =>
        rw [step_range_ok T float64 i proc gauge r hg hr]
        refine ⟨fun k g hk _ => ?_, ?_, ?_⟩
        · exact FromOneSample_mono float64 _ _ k _ (h1 k g hk (fun r hr => by cases hr))
        · intro k g r _ hpc; cases hpc
        · intro j r1 hpc
          rcases hpc with hpc | hpc
          · cases hpc
            simp [Proc.callRead]
          · cases hpc
  | temperatureSet i r =>
    simp only [step]
    have hread : Call.Read i (.ok r) ∈ proc.trace := h3 i r (Or.inl rfl)
    refine ⟨fun k g hk hne => ?_, ?_, ?_⟩
    · have hki : i ≠ k := fun e => hne r (by rw [e])
      simp only [Proc.setTemperature, List.getElem?_modify_ne _ _ hki] at hk
      exact FromOneSample_mono float64 _ _ k _ (h1 k g hk (fun r hr => by cases hr))
    · intro k g r1 hk hpc
      cases hpc
      simp only [Proc.setTemperature, List.getElem?_modify_eq] at hk
      cases hg : proc.gauges[i]? with
      | none => rw [hg] at hk; cases hk
      | some g0 =>
        rw [hg] at hk
        simp only [Option.map_eq_map, Option.map_some', Option.some.injEq] at hk
        subst hk
        exact ⟨rfl, g0.temperature.value,
          FromOneSample_mono float64 _ _ i _ (h1 i g0 hg (fun r hr => by cases hr))⟩
    · intro j r1 hpc
      rcases hpc with hpc | hpc
      · cases hpc
      · cases hpc
        exact List.mem_append_left _ hread
  | co2Set i r =>
    simp only [step]
    have hread : Call.Read i (.ok r) ∈ proc.trace := h3 i r (Or.inr rfl)
    refine ⟨fun k g hk _ => ?_, ?_, ?_⟩
    · by_cases hki : i = k
      · subst hki
        simp only [Proc.setCo2, List.getElem?_modify_eq] at hk
        cases hg : proc.gauges[i]? with
        | none => rw [hg] at hk; cases hk
        | some g0 =>
          rw [hg] at hk
          simp only [Option.map_eq_map, Option.map_some', Option.some.injEq] at hk
          subst hk
          obtain ⟨ht, -⟩ := h2 i g0 r hg rfl
          refine Or.inr ⟨r, List.mem_append_left _ hread, ?_⟩
          simp only [Gauge.published, PromGauge.Set, ht]
      · simp only [Proc.setCo2, List.getElem?_modify_ne _ _ hki] at hk
        exact FromOneSample_mono float64 _ _ k _
          (h1 k g hk (fun r1 hr => by cases hr; exact hki rfl))
    · intro k g r1 _ hpc; cases hpc
    · intro j r1 hpc; rcases hpc with hpc | hpc <;> cases hpc
  | exited e =>
    exact ⟨h1, h2, h3⟩

theorem PairInv_run {M F : Type} [Zero F] (T : Transport M F) (float64 : Int → F) :
    ∀ (n : Nat) (c : Config M F), PairInv float64 c → PairInv float64 (run T float64 n c)
  | 0, _, h => h
  | n + 1, c, h => PairInv_run T float64 n _ (PairInv_step T float64 c h)

theorem setup_gauges_zero {M F : Type} [Zero F] (T : Transport M F) :
    ∀ (deviceInfo : List HidDeviceInfo) (s : Proc M F),
      (∀ g ∈ s.gauges, g.published = (0, 0)) →
      ∀ g ∈ (setup T deviceInfo s).proc.gauges, g.published = (0, 0) := by
  intro deviceInfo
  induction deviceInfo with
  | nil => intro s h; exact h
  | cons device rest ih =>
    intro s h
    rcases bindDevice_cases T s device with ⟨err, -, hb⟩ | ⟨m, -, -, hb⟩ | ⟨m, -, hn, -, hb⟩ |
      ⟨m, -, hn, hc, hb⟩
    · rw [setup_cons_exited T s _ device rest _ hb]; exact h
    · rw [setup_cons_exited T s _ device rest _ hb]; exact h
    · rw [setup_cons_exited T s _ device rest _ hb]; exact h
    · rw [setup_cons_running T s _ device rest hb]
      apply ih
      intro g hg
      rcases List.mem_append.mp hg with h1 | h1
      · exact h g h1
      · rw [List.mem_singleton.mp h1]; rfl

theorem PairInv_start {M F : Type} [Zero F] (float64 : Int → F) (s : Proc M F)
    (h : ∀ g ∈ s.gauges, g.published = (0, 0)) : PairInv float64 ⟨.range 0, s⟩ := by
  refine ⟨fun k g hk _ => Or.inl (h g ?_), ?_, ?_⟩
  · exact List.getElem?_mem hk
  · intro k g r _ hpc; cases hpc
  · intro i r hpc; rcases hpc with hpc | hpc <;> cases hpc

/-! ## The exact invariant of the sampling loop -/

theorem lastSample_concat {F : Type} [Zero F] (float64 : Int → F) (trace : List (Call F))
    (c : Call F) (k : Nat) :
    lastSample float64 (trace ++ [c]) k = Call.sample float64 k (lastSample float64 trace k) c := by
  simp [lastSample, List.foldl_append]

theorem lastSample_no_read {F : Type} [Zero F] (float64 : Int → F) (k : Nat) :
    ∀ (trace : List (Call F)), (∀ c ∈ trace, c.isRead = false) →
      lastSample float64 trace k = (0, 0) := by
  intro trace
  induction trace using List.reverseRecOn with
  | nil => intro _; rfl
  | append_singleton t c ih =>
    intro h
    rw [lastSample_concat, ih (fun x hx => h x (List.mem_append_left _ hx))]
    have hc := h c (by simp)
    cases c with
    | Read i result => simp [Call.isRead] at hc
    | Open d => rfl
    | Register name => rfl
    | SetTemperature i v => rfl
    | SetCo2 i v => rfl

theorem lastSample_fromOneSample {F : Type} [Zero F] (float64 : Int → F) (k : Nat) :
    ∀ (trace : List (Call F)), FromOneSample float64 trace k (lastSample float64 trace k) := by
  intro trace
  induction trace using List.reverseRecOn with
  | nil => exact Or.inl rfl
  | append_singleton t c ih =>
    rw [lastSample_concat]
    cases c with
    | Read i result =>
      cases result with
      | error err => exact FromOneSample_mono float64 t _ k _ ih
      | ok r =>
        by_cases hik : i = k
        · subst hik
          refine Or.inr ⟨r, by simp, ?_⟩
          simp [Call.sample]
        · simp only [Call.sample, if_neg hik]
          exact FromOneSample_mono float64 t _ k _ ih
    | Open d => exact FromOneSample_mono float64 t _ k _ ih
    | Register name => exact FromOneSample_mono float64 t _ k _ ih
    | SetTemperature i v => exact FromOneSample_mono float64 t _ k _ ih
    | SetCo2 i v => exact FromOneSample_mono float64 t _ k _ ih

theorem SampleInv_step {M F : Type} [Zero F] (T : Transport M F) (float64 : Int → F)
    (c : Config M F) (h : SampleInv float64 c) : SampleInv float64 (step T float64 c) := by
  obtain ⟨pc, proc⟩ := c
  obtain ⟨h1, h2, h3⟩ := h
  cases pc with
  | range i =>
    cases hg : proc.gauges[i]? with
    | none =>
      rw [step_range_none T float64 i proc hg]
      refine ⟨fun k g hk _ _ =>
        h1 k g hk (fun r hr => by cases hr) (fun r hr => by cases hr), ?_, ?_⟩
      · intro k g r _ hpc; cases hpc
      · intro k g r _ hpc; cases hpc
    | some gauge =>
      cases hr : T.Read proc.reads gauge.source with
      | error err =>
        rw [step_range_error T float64 i proc gauge err hg hr]
        refine ⟨fun k g hk _ _ => ?_, ?_, ?_⟩
        · show g.published = lastSample float64 (proc.trace ++ [Call.Read i (.error err)]) k
          rw [lastSample_concat]
          exact h1 k g hk (fun r hr => by cases hr) (fun r hr => by cases hr)
        · intro k g r _ hpc; cases hpc
        · intro k g r _ hpc; cases hpc
      | ok r =>
        rw [step_range_ok T float64 i proc gauge r hg hr]
        refine ⟨fun k g hk _ hne => ?_, ?_, ?_⟩
        · have hik : i ≠ k := fun e => hne r (by rw [e])
          show g.published = lastSample float64 (proc.trace ++ [Call.Read i (.ok r)]) k
          rw [lastSample_concat]
          simp only [Call.sample, if_neg hik]
          exact h1 k g hk (fun r hr => by cases hr) (fun r hr => by cases hr)
        · intro k g r1 hk hpc
          cases hpc
          exact ⟨proc.trace, rfl,
            h1 i g hk (fun r hr => by cases hr) (fun r hr => by cases hr)⟩
        · intro k g r1 _ hpc; cases hpc
  | temperatureSet i r =>
    refine ⟨fun k g hk hne _ => ?_, ?_, ?_⟩
    · have hki : i ≠ k := fun e => hne r (by rw [e]; rfl)
      have hk1 : proc.gauges[k]? = some g := by
        simpa only [step, Proc.setTemperature, List.getElem?_modify_ne _ _ hki] using hk
      show g.published =
        lastSample float64 (proc.trace ++ [Call.SetTemperature i r.Temperature]) k
      rw [lastSample_concat]
      exact h1 k g hk1 (fun r1 hr => by cases hr)
        (fun r1 hr => by cases hr; exact hki rfl)
    · intro k g r1 _ hpc; cases hpc
    · intro k g r1 hk hpc
      cases hpc
      simp only [step, Proc.setTemperature, List.getElem?_modify_eq] at hk
      cases hg : proc.gauges[i]? with
      | none => rw [hg] at hk; cases hk
      | some g0 =>
        rw [hg] at hk
        simp only [Option.map_eq_map, Option.map_some', Option.some.injEq] at hk
        subst hk
        obtain ⟨before, hb, hp⟩ := h2 i g0 r hg rfl
        refine ⟨before, ?_, ?_⟩
        · show proc.trace ++ [Call.SetTemperature i r.Temperature] = _
          rw [hb]; simp
        · simp only [Gauge.published, PromGauge.Set]
          rw [← hp]
          rfl
  | co2Set i r =>
    refine ⟨fun k g hk _ _ => ?_, ?_, ?_⟩
    · show g.published = lastSample float64 (proc.trace ++ [Call.SetCo2 i (float64 r.Co2)]) k
      rw [lastSample_concat]
      by_cases hki : i = k
      · subst hki
        simp only [step, Proc.setCo2, List.getElem?_modify_eq] at hk
        cases hg : proc.gauges[i]? with
        | none => rw [hg] at hk; cases hk
        | some g0 =>
          rw [hg] at hk
          simp only [Option.map_eq_map, Option.map_some', Option.some.injEq] at hk
          subst hk
          obtain ⟨before, hb, hp⟩ := h3 i g0 r hg rfl
          rw [hb]
          have e : before ++ [Call.Read i (.ok r), Call.SetTemperature i r.Temperature] =
              (before ++ [Call.Read i (.ok r)]) ++ [Call.SetTemperature i r.Temperature] := by
            simp
          rw [e, lastSample_concat, lastSample_concat]
          simp only [Call.sample, if_pos, Gauge.published, PromGauge.Set]
          have := congrArg Prod.fst hp
          simp only [Gauge.published] at this
          rw [this]
      · have hk1 : proc.gauges[k]? = some g := by
          simpa only [step, Proc.setCo2, List.getElem?_modify_ne _ _ hki] using hk
        exact h1 k g hk1 (fun r1 hr => by cases hr; exact hki rfl) (fun r1 hr => by cases hr)
    · intro k g r1 _ hpc; cases hpc
    · intro k g r1 _ hpc; cases hpc
  | exited e =>
    exact ⟨h1, h2, h3⟩

theorem SampleInv_run {M F : Type} [Zero F] (T : Transport M F) (float64 : Int → F) :
    ∀ (n : Nat) (c : Config M F), SampleInv float64 c → SampleInv float64 (run T float64 n c)
  | 0, _, h => h
  | n + 1, c, h => SampleInv_run T float64 n _ (SampleInv_step T float64 c h)

theorem SampleInv_start {M F : Type} [Zero F] (float64 : Int → F) (s : Proc M F)
    (h : ∀ g ∈ s.gauges, g.published = (0, 0)) (ht : ∀ c ∈ s.trace, c.isRead = false) :
    SampleInv float64 ⟨.range 0, s⟩ := by
  refine ⟨fun k g hk _ _ => ?_, ?_, ?_⟩
  · show g.published = lastSample float64 s.trace k
    rw [lastSample_no_read float64 k s.trace ht]
    exact h g (List.getElem?_mem hk)
  · intro k g r _ hpc; cases hpc
  · intro k g r _ hpc; cases hpc

/-! ## The two views of the sampling loop agree -/

theorem run_add {M F : Type} (T : Transport M F) (float64 : Int → F) :
    ∀ (m n : Nat) (c : Config M F),
      run T float64 (m + n) c = run T float64 n (run T float64 m c)
  | 0, n, c => by simp [run]
  | m + 1, n, c => by
    rw [Nat.add_right_comm, run, run]
    exact run_add T float64 m n _

theorem run_sampled {M F : Type} (T : Transport M F) (float64 : Int → F) (i : Nat)
    (s : Proc M F) (g : Gauge M F) (r : Result F) (hg : s.gauges[i]? = some g)
    (hr : T.Read s.reads g.source = .ok r) :
    run T float64 3 ⟨.range i, s⟩ = ⟨.range (i + 1), s.sampled float64 i r⟩ := by
  simp only [run, step_range_ok T float64 i s g r hg hr]
  rfl

theorem sampleAt_length {M F : Type} (T : Transport M F) (float64 : Int → F) (i : Nat)
    (s s1 : Proc M F) (h : sampleAt T float64 i s = .running s1) :
    s1.gauges.length = s.gauges.length := by
  cases hg : s.gauges[i]? with
  | none =>
    simp only [sampleAt, hg, Outcome.running.injEq] at h
    rw [← h]
  | some g =>
    cases hr : T.Read s.reads g.source with
    | error err =>
      rw [sampleAt_error T float64 i s g err hg hr] at h
      cases h
    | ok r =>
      rw [sampleAt_ok T float64 i s g r hg hr] at h
      cases h
      exact sampled_length float64 s i r

theorem pass_length {M F : Type} (T : Transport M F) (float64 : Int → F) :
    ∀ (is : List Nat) (s s1 : Proc M F), pass T float64 is s = .running s1 →
      s1.gauges.length = s.gauges.length
  | [], s, s1, h => by
    simp only [pass, Outcome.running.injEq] at h
    rw [← h]
  | i :: is, s, s1, h => by
    simp only [pass] at h
    cases hs : sampleAt T float64 i s with
    | exited e s2 =>
      rw [hs] at h
      cases h
    | running s2 =>
      rw [hs] at h
      rw [pass_length T float64 is s2 s1 h, sampleAt_length T float64 i s s2 hs]

/-- The inner loop over `i, ..., i + n - 1`, when it completes, is `3 * n`
steps of the loop taken one library call at a time. -/
theorem run_pass {M F : Type} (T : Transport M F) (float64 : Int → F) :
    ∀ (n i : Nat) (s s1 : Proc M F), i + n ≤ s.gauges.length →
      pass T float64 (List.range' i n) s = .running s1 →
      run T float64 (3 * n) ⟨.range i, s⟩ = ⟨.range (i + n), s1⟩ := by
  intro n
  induction n with
  | zero =>
    intro i s s1 _ h
    simp only [List.range', pass, Outcome.running.injEq] at h
    subst h
    rfl
  | succ n ih =>
    intro i s s1 hlen h
    have hi : i < s.gauges.length := by omega
    have hg := List.getElem?_eq_getElem hi
    rw [List.range'_succ] at h
    simp only [pass] at h
    cases hr : T.Read s.reads s.gauges[i].source with
    | error err =>
      rw [sampleAt_error T float64 i s _ err hg hr] at h
      cases h
    | ok r =>
      rw [sampleAt_ok T float64 i s _ r hg hr] at h
      have h3 := run_sampled T float64 i s _ r hg hr
      have hrest := ih (i + 1) (s.sampled float64 i r) s1
        (by rw [sampled_length]; omega) h
      have e : 3 * (n + 1) = 3 + 3 * n := by omega
      rw [e, run_add, h3, hrest]
      congr 2
      omega

/-- An iteration of the outer loop that completes is `3 * len(gauges) + 1`
steps of the loop taken one library call at a time. -/
theorem run_iteration {M F : Type} (T : Transport M F) (float64 : Int → F)
    (s s1 : Proc M F) (h : iteration T float64 s = .running s1) :
    run T float64 (3 * s.gauges.length + 1) ⟨.range 0, s⟩ = ⟨.range 0, s1⟩ := by
  rw [iteration, List.range_eq_range'] at h
  have hp := run_pass T float64 s.gauges.length 0 s s1 (by omega) h
  rw [run_add, hp]
  have hl : s1.gauges.length = s.gauges.length := pass_length T float64 _ s s1 h
  simp only [run, Nat.zero_add]
  rw [step_range_none T float64 _ s1 (List.getElem?_eq_none (by omega))]

theorem run_exited {M F : Type} (T : Transport M F) (float64 : Int → F) (e : Exit)
    (s : Proc M F) : ∀ n, run T float64 n ⟨.exited e, s⟩ = ⟨.exited e, s⟩
  | 0 => rfl
  | n + 1 => by
    have hst : step T float64 ⟨.exited e, s⟩ = ⟨.exited e, s⟩ := rfl
    simp only [run, hst]
    exact run_exited T float64 e s n

/-! ## Facts about the scenarios -/

theorem steady_reads_ok (n m : Nat) : ∃ r, steady.Read n m = .ok r := by
  unfold steady
  by_cases h : m = 0
  · exact ⟨_, if_pos h⟩
  · exact ⟨_, if_neg h⟩

theorem setup_oneBound (T : Transport Nat ℚ) (h : T.Open 0 hid0 = .ok 0) :
    setup T [hid0] (Proc.start []) = .running oneBound := by
  rw [setup_cons_running T _ _ hid0 [] (bindDevice_ok T (Proc.start []) hid0 0 h
    (List.not_mem_nil _) (List.not_mem_nil _))]
  rfl

theorem setup_twoBound (T : Transport Nat ℚ) (h0 : T.Open 0 hid0 = .ok 0)
    (h1 : T.Open 1 hid1 = .ok 1) :
    setup T [hid0, hid1] (Proc.start []) = .running twoBound := by
  have hn := four_names_nodup _ _ hid_digests_ne
  simp only [List.nodup_cons, List.mem_cons, List.mem_singleton, List.not_mem_nil, or_false,
    not_or] at hn
  rw [setup_cons_running T _ _ hid0 [hid1] (bindDevice_ok T (Proc.start []) hid0 0 h0
    (List.not_mem_nil _) (List.not_mem_nil _))]
  rw [setup_cons_running T _ _ hid1 [] (bindDevice_ok T _ hid1 1 h1
    (by
      simp only [Proc.start, List.nil_append, List.mem_cons, List.mem_singleton,
        List.not_mem_nil, or_false, not_or, temperatureName, co2Name]
      exact ⟨fun e => hn.1.2.1 e.symm, fun e => hn.2.1.1 e.symm⟩)
    (by
      simp only [Proc.start, List.nil_append, List.mem_cons, List.mem_singleton,
        List.not_mem_nil, or_false, not_or, temperatureName, co2Name]
      exact ⟨fun e => hn.1.2.2 e.symm, fun e => hn.2.1.2 e.symm⟩))]
  rfl

/-! ## The claims -/

/-- C1: in an iteration of the sampling loop in which every `Read` succeeds,
the iteration completes and afterwards every binding publishes exactly the
temperature and the (converted) CO2 level that its own `Read` of this
iteration returned; the binding set keeps its length, so the update of one
binding leaves the values of the others as their own reads set them. -/
theorem iteration_publishes_own_read {M F : Type} (T : Transport M F) (float64 : Int → F)
    (s : Proc M F)
    (hread : ∀ (k : Nat) g, s.gauges[k]? = some g →
      ∃ r, T.Read (s.reads + k) g.source = .ok r) :
    ∃ s1, iteration T float64 s = .running s1 ∧
      s1.gauges.length = s.gauges.length ∧
      ∀ (k : Nat) g, s.gauges[k]? = some g →
        ∃ r g1, T.Read (s.reads + k) g.source = .ok r ∧
          Call.Read k (.ok r) ∈ s1.trace ∧
          s1.gauges[k]? = some g1 ∧
          g1.published = (r.Temperature, float64 r.Co2) ∧
          g1.source = g.source ∧
          g1.temperature.opts = g.temperature.opts ∧ g1.co2.opts = g.co2.opts := by
  obtain ⟨s1, h1, h2, -, -, -, -, -, h8⟩ := pass_ok T float64 s.gauges.length 0 s (by omega)
    (fun k g _ _ hg => by simpa using hread k g hg)
  refine ⟨s1, by rw [iteration, List.range_eq_range']; exact h1, h2, ?_⟩
  intro k g hg
  have hk : k < s.gauges.length := by
    rcases Nat.lt_or_ge k s.gauges.length with h | h
    · exact h
    · rw [List.getElem?_eq_none h] at hg; cases hg
  obtain ⟨r, hr, hg1, ht⟩ := h8 k g (Nat.zero_le _) (by omega) hg
  exact ⟨r, g.update float64 r, by simpa using hr, ht, hg1, rfl, rfl, rfl, rfl⟩

/-- Witness of C1: with the paths "/dev/hid0" and "/dev/hid1" bound by setup
and first reads (21.5, 650) and (22.0, 700), the first iteration of `measure`
leaves the published pairs (21.5, 650) and (22.0, 700). -/
theorem iteration_publishes_own_read_witness :
    setup steady [hid0, hid1] (Proc.start []) = .running twoBound ∧
    (∀ (k : Nat) g, twoBound.gauges[k]? = some g →
      ∃ r, steady.Read (twoBound.reads + k) g.source = .ok r) ∧
    ∃ s1, iteration steady ratOfInt twoBound = .running s1 ∧
      measure steady ratOfInt [] [hid0, hid1] 1 = .running s1 ∧
      s1.gauges.map Gauge.published = [(21.5, 650), (22.0, 700)] := by
  have hyp : ∀ (k : Nat) g, twoBound.gauges[k]? = some g →
      ∃ r, steady.Read (twoBound.reads + k) g.source = .ok r :=
    fun k g _ => steady_reads_ok _ _
  have hset := setup_twoBound steady rfl rfl
  refine ⟨hset, hyp, ?_⟩
  obtain ⟨s1, h1, h2, h3⟩ := iteration_publishes_own_read steady ratOfInt twoBound hyp
  refine ⟨s1, h1, by simp only [measure, hset, loop, h1], ?_⟩
  obtain ⟨r0, g0, hr0, -, hg0, hp0, -⟩ := h3 0 (newBinding hid0 0) rfl
  obtain ⟨r1, g1, hr1, -, hg1, hp1, -⟩ := h3 1 (newBinding hid1 1) rfl
  have e0 : r0 = ⟨21.5, 650⟩ := by
    have : steady.Read (twoBound.reads + 0) (newBinding hid0 0 : Gauge Nat ℚ).source =
      .ok ⟨21.5, 650⟩ := rfl
    rw [this] at hr0
    exact (Except.ok.inj hr0).symm
  have e1 : r1 = ⟨22.0, 700⟩ := by
    have : steady.Read (twoBound.reads + 1) (newBinding hid1 1 : Gauge Nat ℚ).source =
      .ok ⟨22.0, 700⟩ := rfl
    rw [this] at hr1
    exact (Except.ok.inj hr1).symm
  subst e0 e1
  have hl : s1.gauges.length = 2 := h2
  match hs : s1.gauges, hl with
  | [a, b], _ =>
    rw [hs] at hg0 hg1
    simp only [List.getElem?_cons_zero, List.getElem?_cons_succ, Option.some.injEq] at hg0 hg1
    subst hg0 hg1
    simp only [List.map_cons, List.map_nil, hp0, hp1, ratOfInt]
    norm_num

/-- C2 as amended: the two published values of a binding are replaced by two
consecutive `Set` calls, not atomically.  In every state the sampling loop
reaches after setup, one library call at a time: a binding that is not
between its two `Set` calls publishes the pair of one sample (the pair of a
gauge just created or the pair of one successful `Read` of that binding), and
outside the whole update it is the pair of its most recent successful `Read`;
between the `Read` and the first `Set` it still publishes the pair sampled
before that `Read`; between the two `Set` calls it publishes the temperature
just read together with the CO2 value sampled before that `Read`.  That last
state is reached two steps after every successful `Read`, with the CO2 gauge
untouched. -/
theorem pairs_whole_outside_update {M F : Type} [Zero F] (T : Transport M F)
    (float64 : Int → F) (registry : List String) (deviceInfo : List HidDeviceInfo)
    (s0 : Proc M F) (n k : Nat) (g : Gauge M F)
    (hsetup : setup T deviceInfo (Proc.start registry) = .running s0)
    (hg : (run T float64 n ⟨.range 0, s0⟩).proc.gauges[k]? = some g) :
    ((∀ r, (run T float64 n ⟨.range 0, s0⟩).pc ≠ .co2Set k r) →
      FromOneSample float64 (run T float64 n ⟨.range 0, s0⟩).proc.trace k g.published) ∧
    ((∀ r, (run T float64 n ⟨.range 0, s0⟩).pc ≠ .co2Set k r) →
      (∀ r, (run T float64 n ⟨.range 0, s0⟩).pc ≠ .temperatureSet k r) →
      g.published = lastSample float64 (run T float64 n ⟨.range 0, s0⟩).proc.trace k) ∧
    (∀ r, (run T float64 n ⟨.range 0, s0⟩).pc = .temperatureSet k r →
      ∃ before, (run T float64 n ⟨.range 0, s0⟩).proc.trace =
          before ++ [Call.Read k (.ok r)] ∧
        g.published = lastSample float64 before k) ∧
    (∀ r, (run T float64 n ⟨.range 0, s0⟩).pc = .co2Set k r →
      g.temperature.value = r.Temperature ∧
      Call.Read k (.ok r) ∈ (run T float64 n ⟨.range 0, s0⟩).proc.trace ∧
      (∃ t0, FromOneSample float64 (run T float64 n ⟨.range 0, s0⟩).proc.trace k
        (t0, g.co2.value)) ∧
      ∃ before, (run T float64 n ⟨.range 0, s0⟩).proc.trace =
          before ++ [Call.Read k (.ok r), Call.SetTemperature k r.Temperature] ∧
        g.co2.value = (lastSample float64 before k).2 ∧
        ∃ t0, FromOneSample float64 before k (t0, g.co2.value)) ∧
    (∀ r, (run T float64 n ⟨.range 0, s0⟩).pc = .range k →
      T.Read (run T float64 n ⟨.range 0, s0⟩).proc.reads g.source = .ok r →
      (run T float64 (n + 2) ⟨.range 0, s0⟩).pc = .co2Set k r ∧
      (run T float64 (n + 2) ⟨.range 0, s0⟩).proc.gauges[k]? =
        some ⟨g.temperature.Set r.Temperature, g.co2, g.source⟩) := by
  have hz : ∀ g ∈ s0.gauges, g.published = (0, 0) := by
    have := setup_gauges_zero T deviceInfo (Proc.start registry)
      (fun g hg => by simp [Proc.start] at hg)
    rw [hsetup] at this
    exact this
  have ht : ∀ c ∈ s0.trace, c.isRead = false := by
    obtain ⟨-, ⟨ext, h2, h3⟩, -, -⟩ := setup_invariant T deviceInfo (Proc.start registry)
    rw [hsetup] at h2
    intro c hc
    have h2' : s0.trace = (Proc.start registry : Proc M F).trace ++ ext := h2
    rw [h2'] at hc
    exact h3 c (by simpa [Proc.start] using hc)
  obtain ⟨h1, h2, h3⟩ := PairInv_run T float64 n _ (PairInv_start float64 s0 hz)
  obtain ⟨j1, j2, j3⟩ := SampleInv_run T float64 n _ (SampleInv_start float64 s0 hz ht)
  refine ⟨fun hne => h1 k g hg hne, fun hne hne2 => j1 k g hg hne hne2,
    fun r hpc => j2 k g r hg hpc, fun r hpc => ?_, fun r hpc hr => ?_⟩
  · obtain ⟨htemp, hc⟩ := h2 k g r hg hpc
    obtain ⟨before, hb, hp⟩ := j3 k g r hg hpc
    have hco2 : g.co2.value = (lastSample float64 before k).2 := congrArg Prod.snd hp
    refine ⟨htemp, h3 k r (Or.inr hpc), hc, before, hb, hco2,
      (lastSample float64 before k).1, ?_⟩
    rw [hco2]
    exact lastSample_fromOneSample float64 k before
  · rw [run_add]
    generalize run T float64 n ⟨.range 0, s0⟩ = c at hg hpc hr
    obtain ⟨pc, proc⟩ := c
    simp only at hpc hg hr
    subst hpc
    have e : run T float64 2 ⟨.range k, proc⟩ =
        ⟨.co2Set k r, (proc.callRead k (.ok r)).setTemperature k r.Temperature⟩ := by
      simp only [run]
      rw [step_range_ok T float64 k proc g r hg hr]
      rfl
    rw [e]
    refine ⟨rfl, ?_⟩
    simp only [Proc.setTemperature, Proc.callRead, List.getElem?_modify_eq, hg]
    rfl

/-- Witness of C2 as amended: one binding whose first `Read` returns
(21.5, 650) and whose second `Read` returns (22.0, 700).  After three steps
the binding publishes (21.5, 650); the fifth step is the second `Read`; after
six steps the loop is between the two `Set` calls and the binding publishes
(22.0, 650), the CO2 value being the one sampled before the second `Read`. -/
theorem pairs_whole_outside_update_witness :
    setup drifting [hid0] (Proc.start []) = .running oneBound ∧
    (run drifting ratOfInt 3 ⟨.range 0, oneBound⟩).proc.gauges[0]? =
      some ((newBinding hid0 0).update ratOfInt ⟨21.5, 650⟩) ∧
    (∀ r, (run drifting ratOfInt 3 ⟨.range 0, oneBound⟩).pc ≠ .co2Set 0 r) ∧
    FromOneSample ratOfInt (run drifting ratOfInt 3 ⟨.range 0, oneBound⟩).proc.trace 0
      ((newBinding hid0 0 : Gauge Nat ℚ).update ratOfInt ⟨21.5, 650⟩).published ∧
    (run drifting ratOfInt 4 ⟨.range 0, oneBound⟩).pc = .range 0 ∧
    ((run drifting ratOfInt (4 + 2) ⟨.range 0, oneBound⟩).pc = .co2Set 0 ⟨22.0, 700⟩ ∧
      (run drifting ratOfInt (4 + 2) ⟨.range 0, oneBound⟩).proc.gauges[0]? =
        some ⟨(newBinding hid0 0 : Gauge Nat ℚ).temperature.Set 22.0,
          (newBinding hid0 0 : Gauge Nat ℚ).co2.Set (ratOfInt 650), 0⟩) ∧
    ((22.0 : ℚ) = (⟨22.0, 700⟩ : Result ℚ).Temperature ∧
      Call.Read 0 (.ok ⟨22.0, 700⟩) ∈
        (run drifting ratOfInt 6 ⟨.range 0, oneBound⟩).proc.trace ∧
      (∃ t0, FromOneSample ratOfInt (run drifting ratOfInt 6 ⟨.range 0, oneBound⟩).proc.trace
        0 (t0, ratOfInt 650)) ∧
      ∃ before, (run drifting ratOfInt 6 ⟨.range 0, oneBound⟩).proc.trace =
          before ++ [Call.Read 0 (.ok ⟨22.0, 700⟩), Call.SetTemperature 0 22.0] ∧
        ratOfInt 650 = (lastSample ratOfInt before 0).2 ∧
        ∃ t0, FromOneSample ratOfInt before 0 (t0, ratOfInt 650)) :=
  have hs : setup drifting [hid0] (Proc.start []) = .running oneBound :=
    setup_oneBound drifting rfl
  have hg3 : (run drifting ratOfInt 3 ⟨.range 0, oneBound⟩).proc.gauges[0]? =
      some ((newBinding hid0 0).update ratOfInt ⟨21.5, 650⟩) := rfl
  have hpc3 : ∀ r, (run drifting ratOfInt 3 ⟨.range 0, oneBound⟩).pc ≠ .co2Set 0 r := by
    intro r h
    have e : (run drifting ratOfInt 3 ⟨.range 0, oneBound⟩).pc = .range 1 := rfl
    rw [e] at h
    cases h
  have hg4 : (run drifting ratOfInt 4 ⟨.range 0, oneBound⟩).proc.gauges[0]? =
      some ⟨(newBinding hid0 0 : Gauge Nat ℚ).temperature.Set 21.5,
        (newBinding hid0 0 : Gauge Nat ℚ).co2.Set (ratOfInt 650), 0⟩ := rfl
  have hg6 : (run drifting ratOfInt 6 ⟨.range 0, oneBound⟩).proc.gauges[0]? =
      some ⟨(newBinding hid0 0 : Gauge Nat ℚ).temperature.Set 22.0,
        (newBinding hid0 0 : Gauge Nat ℚ).co2.Set (ratOfInt 650), 0⟩ := rfl
  ⟨hs, hg3, hpc3,
    (pairs_whole_outside_update drifting ratOfInt [] [hid0] oneBound 3 0 _ hs hg3).1 hpc3,
    rfl,
    (pairs_whole_outside_update drifting ratOfInt [] [hid0] oneBound 4 0 _ hs hg4).2.2.2.2
      ⟨22.0, 700⟩ rfl rfl,
    (pairs_whole_outside_update drifting ratOfInt [] [hid0] oneBound 6 0 _ hs hg6).2.2.2.1
      ⟨22.0, 700⟩ rfl⟩

/-- Counterexample to C2 as stated: one binding whose first `Read` returns
(21.5, 650) and whose second `Read` returns (22.0, 700).  After six steps of
the loop (the first update, the return to the head of the outer loop, the
second `Read` and the `Set` of the temperature; the `Set` of the CO2 value not
yet done) the binding publishes (22.0, 650): the
temperature of the second `Read` with the CO2 value of the first, which is the
pair of no sample. -/
theorem torn_pair_counterexample :
    setup drifting [hid0] (Proc.start []) = .running oneBound ∧
    (run drifting ratOfInt 6 ⟨.range 0, oneBound⟩).proc.trace =
      oneBound.trace ++
        [Call.Read 0 (.ok ⟨21.5, 650⟩), Call.SetTemperature 0 21.5,
          Call.SetCo2 0 (ratOfInt 650), Call.Read 0 (.ok ⟨22.0, 700⟩),
          Call.SetTemperature 0 22.0] ∧
    (run drifting ratOfInt 6 ⟨.range 0, oneBound⟩).proc.gauges.map Gauge.published =
      [(22.0, ratOfInt 650)] ∧
    ¬ FromOneSample ratOfInt (run drifting ratOfInt 6 ⟨.range 0, oneBound⟩).proc.trace 0
      (22.0, ratOfInt 650) := by
  have ht : (run drifting ratOfInt 6 ⟨.range 0, oneBound⟩).proc.trace =
      oneBound.trace ++
        [Call.Read 0 (.ok ⟨21.5, 650⟩), Call.SetTemperature 0 21.5,
          Call.SetCo2 0 (ratOfInt 650), Call.Read 0 (.ok ⟨22.0, 700⟩),
          Call.SetTemperature 0 22.0] := rfl
  refine ⟨setup_oneBound drifting rfl, ht, rfl, ?_⟩
  rw [ht]
  rintro (h | ⟨r, hr, hp⟩)
  · simp only [Prod.mk.injEq, ratOfInt] at h
    norm_num at h
  · simp only [oneBound, List.mem_append, List.mem_cons, List.mem_singleton,
      List.not_mem_nil, or_false] at hr
    have hne : (22.0 : ℚ) ≠ 21.5 := by norm_num
    have hne2 : ratOfInt 650 ≠ ratOfInt 700 := by simp only [ratOfInt]; norm_num
    rcases hr with (hr | hr | hr) | hr | hr | hr | hr | hr
    · cases hr
    · cases hr
    · cases hr
    · cases hr
      exact hne (congrArg Prod.fst hp)
    · cases hr
    · cases hr
    · cases hr
      exact hne2 (congrArg Prod.snd hp)
    · cases hr

/-- C3: when the `Read` of binding `i` fails in an iteration (the reads of the
bindings before it having succeeded), the loop ends the process at that call:
the final state is the state in which the failing `Read` was issued, with that
`Read` as its last call, whatever the number of iterations observed and
however many further steps the loop is given; binding `i` and the bindings
after it keep the values they had before the iteration. -/
theorem read_failure_halts {M F : Type} (T : Transport M F) (float64 : Int → F)
    (s : Proc M F) (i : Nat) (g : Gauge M F) (err : String)
    (hg : s.gauges[i]? = some g)
    (hbefore : ∀ (k : Nat) gk, k < i → s.gauges[k]? = some gk →
      ∃ r, T.Read (s.reads + k) gk.source = .ok r)
    (hfail : T.Read (s.reads + i) g.source = .error err) :
    ∃ sb, pass T float64 (List.range' 0 i) s = .running sb ∧
      iteration T float64 s = .exited (.readFailed err) (sb.callRead i (.error err)) ∧
      (∀ n, loop T float64 (n + 1) s =
        .exited (.readFailed err) (sb.callRead i (.error err))) ∧
      (∀ n, run T float64 (3 * i + 1 + n) ⟨.range 0, s⟩ =
        ⟨.exited (.readFailed err), sb.callRead i (.error err)⟩) ∧
      (sb.callRead i (.error err)).trace = sb.trace ++ [Call.Read i (.error err)] ∧
      (sb.callRead i (.error err)).reads = s.reads + i + 1 ∧
      (sb.callRead i (.error err)).gauges = sb.gauges ∧
      (∀ (k : Nat), i ≤ k → (sb.callRead i (.error err)).gauges[k]? = s.gauges[k]?) := by
  have hi := getElem?_some_lt _ _ _ hg
  obtain ⟨sb, h1, h2, h3, -, -, -, h7, -⟩ := pass_ok T float64 i 0 s (by omega)
    (fun k gk _ hk hgk => by simpa using hbefore k gk (by omega) hgk)
  have hgb : sb.gauges[i]? = some g := by rw [h7 i (by omega)]; exact hg
  have hrb : T.Read sb.reads g.source = .error err := by rw [h3]; exact hfail
  have hit : iteration T float64 s = .exited (.readFailed err) (sb.callRead i (.error err)) := by
    have hsplit : List.range s.gauges.length =
        List.range' 0 i ++ i :: List.range' (i + 1) (s.gauges.length - i - 1) := by
      rw [List.range_eq_range', ← List.range'_succ]
      have : List.range' 0 i ++ List.range' (0 + i) (s.gauges.length - i - 1 + 1) =
          List.range' 0 (s.gauges.length - i - 1 + 1 + i) := List.range'_append_1 _ _ _
      rw [Nat.zero_add] at this
      rw [this]; congr 1; omega
    rw [iteration, hsplit, pass_append, h1]
    simp only [pass, sampleAt_error T float64 i sb g err hgb hrb]
  have hrun : ∀ n, run T float64 (3 * i + 1 + n) ⟨.range 0, s⟩ =
      ⟨.exited (.readFailed err), sb.callRead i (.error err)⟩ := by
    intro n
    rw [run_add, run_add, run_pass T float64 i 0 s sb (by omega) h1]
    simp only [run, Nat.zero_add]
    rw [step_range_error T float64 i sb g err hgb hrb]
    exact run_exited T float64 _ _ n
  refine ⟨sb, h1, hit, fun n => loop_succ_exited T float64 n s _ _ hit, hrun, rfl, ?_, rfl, ?_⟩
  · show sb.reads + 1 = s.reads + i + 1
    rw [h3]
  · intro k hk
    exact h7 k (by omega)

/-- Witness of C3: two bindings, the second `Read` of the process (the first
one of the second binding) fails. -/
theorem read_failure_halts_witness :
    setup flaky [hid0, hid1] (Proc.start []) = .running twoBound ∧
    twoBound.gauges[1]? = some (newBinding hid1 1) ∧
    (∀ (k : Nat) gk, k < 1 → twoBound.gauges[k]? = some gk →
      ∃ r, flaky.Read (twoBound.reads + k) gk.source = .ok r) ∧
    flaky.Read (twoBound.reads + 1) (newBinding hid1 1 : Gauge Nat ℚ).source =
      .error "read failed" ∧
    ∃ sb, pass flaky ratOfInt (List.range' 0 1) twoBound = .running sb ∧
      iteration flaky ratOfInt twoBound =
        .exited (.readFailed "read failed") (sb.callRead 1 (.error "read failed")) ∧
      (∀ n, loop flaky ratOfInt (n + 1) twoBound =
        .exited (.readFailed "read failed") (sb.callRead 1 (.error "read failed"))) ∧
      (∀ n, run flaky ratOfInt (3 * 1 + 1 + n) ⟨.range 0, twoBound⟩ =
        ⟨.exited (.readFailed "read failed"), sb.callRead 1 (.error "read failed")⟩) ∧
      (sb.callRead 1 (.error "read failed")).trace =
        sb.trace ++ [Call.Read 1 (.error "read failed")] ∧
      (sb.callRead 1 (.error "read failed")).reads = twoBound.reads + 1 + 1 ∧
      (sb.callRead 1 (.error "read failed")).gauges = sb.gauges ∧
      (∀ (k : Nat), 1 ≤ k →
        (sb.callRead 1 (.error "read failed")).gauges[k]? = twoBound.gauges[k]?) :=
  have hb : ∀ (k : Nat) gk, k < 1 → twoBound.gauges[k]? = some gk →
      ∃ r, flaky.Read (twoBound.reads + k) gk.source = .ok r := by
    intro k gk hk _
    have : k = 0 := by omega
    subst this
    exact ⟨_, rfl⟩
  ⟨setup_twoBound flaky rfl rfl, rfl, hb, rfl,
    read_failure_halts flaky ratOfInt twoBound 1 (newBinding hid1 1) "read failed" rfl hb rfl⟩

/-- C4: when every `Open` succeeds and no metric name collides, binding setup
completes with as many bindings as descriptors, and its `k`-th binding holds
the meter opened from the `k`-th descriptor together with the two fresh gauges
named from the `k`-th descriptor's path. -/
theorem setup_binds_in_order {M F : Type} [Zero F] (T : Transport M F) (float64 : Int → F)
    (registry : List String) (deviceInfo : List HidDeviceInfo)
    (hopen : ∀ (k : Nat) d, deviceInfo[k]? = some d → ∃ m, T.Open k d = .ok m)
    (hnodup : (metricNames deviceInfo).Nodup)
    (hfresh : ∀ x ∈ metricNames deviceInfo, x ∉ registry) :
    ∃ s, setup T deviceInfo (Proc.start registry) = .running s ∧
      measure T float64 registry deviceInfo 0 = .running s ∧
      s.gauges.length = deviceInfo.length ∧
      ∀ (k : Nat) d, deviceInfo[k]? = some d →
        ∃ m, T.Open k d = .ok m ∧ s.gauges[k]? = some (newBinding d m) := by
  obtain ⟨s, h1, h2, -, h4, -, -⟩ := setup_running T deviceInfo (Proc.start registry)
    (fun k d hk => by simpa [Proc.start] using hopen k d hk) hnodup hfresh
  refine ⟨s, h1, by simp only [measure, h1, loop], by simpa [Proc.start] using h2, ?_⟩
  intro k d hk
  obtain ⟨m, hm, hg⟩ := h4 k d hk
  exact ⟨m, by simpa [Proc.start] using hm, by simpa [Proc.start] using hg⟩

/-- Witness of C4: the descriptors "/dev/hid0" and "/dev/hid1" on a transport
that opens every device. -/
theorem setup_binds_in_order_witness :
    (∀ (k : Nat) d, [hid0, hid1][k]? = some d → ∃ m, steady.Open k d = .ok m) ∧
    (metricNames [hid0, hid1]).Nodup ∧
    (∀ x ∈ metricNames [hid0, hid1], x ∉ ([] : List String)) ∧
    ∃ s, setup steady [hid0, hid1] (Proc.start []) = .running s ∧
      measure steady ratOfInt [] [hid0, hid1] 0 = .running s ∧
      s.gauges.length = [hid0, hid1].length ∧
      ∀ (k : Nat) d, [hid0, hid1][k]? = some d →
        ∃ m, steady.Open k d = .ok m ∧ s.gauges[k]? = some (newBinding d m) :=
  have ho : ∀ (k : Nat) d, [hid0, hid1][k]? = some d → ∃ m, steady.Open k d = .ok m :=
    fun k _ _ => ⟨k, rfl⟩
  have hn : (metricNames [hid0, hid1]).Nodup := four_names_nodup _ _ hid_digests_ne
  have hf : ∀ x ∈ metricNames [hid0, hid1], x ∉ ([] : List String) :=
    fun _ _ => List.not_mem_nil _
  ⟨ho, hn, hf, setup_binds_in_order steady ratOfInt [] [hid0, hid1] ho hn hf⟩

/-- C5: when the `Open` of some descriptor fails, binding setup ends the
process (never on a failed `Read`) and `measure` produces no binding set:
whatever the number of iterations observed, the outcome is that exit, no
`Read` was counted and no `Read` call is in the trace.  When the descriptors
before the failing one were bound (their `Open` succeeded, their names were
pairwise different and new to the registry), the exit is the `log.Fatalf` of
line 46 for the failing descriptor, with those bindings in place. -/
theorem open_failure_is_fatal {M F : Type} [Zero F] (T : Transport M F) (float64 : Int → F)
    (registry : List String) (earlier : List HidDeviceInfo) (d : HidDeviceInfo)
    (later : List HidDeviceInfo) (err : String) (n : Nat)
    (hfail : T.Open earlier.length d = .error err) :
    (∃ e s, setup T (earlier ++ d :: later) (Proc.start registry) = .exited e s ∧
      measure T float64 registry (earlier ++ d :: later) n = .exited e s ∧
      (∀ err1, e ≠ .readFailed err1) ∧ s.reads = 0 ∧ ∀ c ∈ s.trace, c.isRead = false) ∧
    ((metricNames earlier).Nodup → (∀ x ∈ metricNames earlier, x ∉ registry) →
      (∀ (k : Nat) dk, earlier[k]? = some dk → ∃ m, T.Open k dk = .ok m) →
      ∃ s1, setup T earlier (Proc.start registry) = .running s1 ∧
        s1.gauges.length = earlier.length ∧
        measure T float64 registry (earlier ++ d :: later) n =
          .exited (.openFailed d.Path)
            { s1 with opens := s1.opens + 1, trace := s1.trace ++ [Call.Open d] }) := by
  constructor
  · obtain ⟨e, s, h1, h2, h3, ⟨ext, h4, h5⟩, -⟩ :=
      setup_exited_facts T (earlier ++ d :: later) (Proc.start registry) (fun s1 hs1 => by
        obtain ⟨ho, -, -⟩ := setup_running_only_if T _ _ s1 hs1
        obtain ⟨m, hm⟩ := ho earlier.length d (by
          rw [List.getElem?_append_right (le_refl _)]; simp)
        simp only [Proc.start, Nat.zero_add] at hm
        rw [hfail] at hm
        cases hm)
    refine ⟨e, s, h1, measure_of_setup_exited T float64 registry _ n e s h1, h2, h3, ?_⟩
    intro c hc
    rw [h4] at hc
    exact h5 c (by simpa [Proc.start] using hc)
  · intro hnd hfresh hopen
    obtain ⟨s1, h1, h2, -, -, -, h6⟩ := setup_running T earlier (Proc.start registry)
      (fun k dk hk => by simpa [Proc.start] using hopen k dk hk) hnd hfresh
    have hf : T.Open s1.opens d = .error err := by
      rw [h6]
      simpa [Proc.start] using hfail
    refine ⟨s1, h1, by simpa [Proc.start] using h2, ?_⟩
    apply measure_of_setup_exited
    rw [setup_append, h1]
    exact setup_cons_exited T s1 _ d later _ (bindDevice_openFailed T s1 d err hf)

/-- Witness of C5: the second of two descriptors cannot be opened. -/
theorem open_failure_is_fatal_witness :
    busy.Open [hid0].length hid1 = .error "device busy" ∧
    (∃ e s, setup busy ([hid0] ++ hid1 :: []) (Proc.start []) = .exited e s ∧
      measure busy ratOfInt [] ([hid0] ++ hid1 :: []) 3 = .exited e s ∧
      (∀ err1, e ≠ .readFailed err1) ∧ s.reads = 0 ∧ ∀ c ∈ s.trace, c.isRead = false) ∧
    ∃ s1, setup busy [hid0] (Proc.start []) = .running s1 ∧
      s1.gauges.length = [hid0].length ∧
      measure busy ratOfInt [] ([hid0] ++ hid1 :: []) 3 =
        .exited (.openFailed hid1.Path)
          { s1 with opens := s1.opens + 1, trace := s1.trace ++ [Call.Open hid1] } :=
  have h := open_failure_is_fatal busy ratOfInt [] [hid0] hid1 [] "device busy" 3 rfl
  ⟨rfl, h.1, h.2
    (by
      simp only [metricNames, List.nodup_cons, List.mem_singleton, List.not_mem_nil,
        not_false_eq_true, List.nodup_nil, and_true]
      exact temperatureName_ne_co2Name _ _)
    (fun _ _ => List.not_mem_nil _)
    (fun k dk hk => by
      have hlt := getElem?_some_lt _ _ _ hk
      have hk0 : k = 0 := by simpa using hlt
      subst hk0
      exact ⟨0, rfl⟩)⟩

/-- C6: the two gauges that the setup of a device registers are named
"meter_" ++ H ++ "_temperature_celsius" and "meter_" ++ H ++ "_co2_ppm", with
help texts ending in H, where H is the 40 lowercase hexadecimal digits of the
20-byte SHA-1 digest of the transport path; any descriptor with the same path
gets the same two names, whatever its serial. -/
theorem gauges_named_from_path {M F : Type} [Zero F] (T : Transport M F) (s s1 : Proc M F)
    (device : HidDeviceInfo) (h : bindDevice T s device = .running s1) :
    ∃ (source : M) (H : String),
      H = String.mk (hex (sha1.Sum device.Path).val) ∧
      (sha1.Sum device.Path).val.length = 20 ∧
      H.length = 40 ∧ (∀ c ∈ H.toList, c ∈ "0123456789abcdef".toList) ∧
      s1.gauges = s.gauges ++
        [⟨NewGauge ⟨"meter_" ++ H ++ "_temperature_celsius",
            "Current temperature in Celsius for device " ++ H⟩,
          NewGauge ⟨"meter_" ++ H ++ "_co2_ppm",
            "Current CO2 level (ppm) for device " ++ H⟩, source⟩] ∧
      s1.registry = s.registry ++
        ["meter_" ++ H ++ "_temperature_celsius", "meter_" ++ H ++ "_co2_ppm"] ∧
      ∀ other : HidDeviceInfo, other.Path = device.Path →
        temperatureName other = "meter_" ++ H ++ "_temperature_celsius" ∧
        co2Name other = "meter_" ++ H ++ "_co2_ppm" := by
  rcases bindDevice_cases T s device with ⟨err, -, hb⟩ | ⟨m, -, -, hb⟩ | ⟨m, -, hn, -, hb⟩ |
    ⟨m, -, hn, hc, hb⟩
  · rw [hb] at h; cases h
  · rw [hb] at h; cases h
  · rw [hb] at h; cases h
  · rw [hb] at h
    cases h
    refine ⟨m, sprintfX (sha1.Sum device.Path), rfl, (sha1.Sum device.Path).property,
      sprintfX_length _, hex_chars _, rfl, rfl, ?_⟩
    intro other ho
    simp only [temperatureName, co2Name, ho]
    exact ⟨rfl, rfl⟩

/-- Witness of C6: the descriptor "/dev/hid0" bound in the initial state. -/
theorem gauges_named_from_path_witness :
    ∃ (source : Nat) (H : String),
      H = String.mk (hex (sha1.Sum hid0.Path).val) ∧
      (sha1.Sum hid0.Path).val.length = 20 ∧
      H.length = 40 ∧ (∀ c ∈ H.toList, c ∈ "0123456789abcdef".toList) ∧
      (bindDevice steady (Proc.start []) hid0).proc.gauges = (Proc.start []).gauges ++
        [⟨NewGauge ⟨"meter_" ++ H ++ "_temperature_celsius",
            "Current temperature in Celsius for device " ++ H⟩,
          NewGauge ⟨"meter_" ++ H ++ "_co2_ppm",
            "Current CO2 level (ppm) for device " ++ H⟩, source⟩] ∧
      (bindDevice steady (Proc.start []) hid0).proc.registry =
        (Proc.start [] : Proc Nat ℚ).registry ++
        ["meter_" ++ H ++ "_temperature_celsius", "meter_" ++ H ++ "_co2_ppm"] ∧
      ∀ other : HidDeviceInfo, other.Path = hid0.Path →
        temperatureName other = "meter_" ++ H ++ "_temperature_celsius" ∧
        co2Name other = "meter_" ++ H ++ "_co2_ppm" :=
  gauges_named_from_path steady (Proc.start []) _ hid0
    (by
      rw [bindDevice_ok steady (Proc.start []) hid0 0 rfl (List.not_mem_nil _)
        (List.not_mem_nil _)]
      rfl)

/-- C7: two different identities give four pairwise different metric names;
for each quantity the name is an injective function of the identity, and a
temperature name is never a CO2 name. -/
theorem distinct_identities_distinct_names (a b : Digest) (h : a ≠ b) :
    [(temperatureOpts a).Name, (co2Opts a).Name, (temperatureOpts b).Name,
      (co2Opts b).Name].Nodup ∧
    Function.Injective (fun d : Digest => (temperatureOpts d).Name) ∧
    Function.Injective (fun d : Digest => (co2Opts d).Name) ∧
    ∀ c d : Digest, (temperatureOpts c).Name ≠ (co2Opts d).Name :=
  ⟨four_names_nodup a b h, fun x y e => temperatureName_injective x y e,
    fun x y e => co2Name_injective x y e, temperatureName_ne_co2Name⟩

set_option maxRecDepth 100000 in
/-- Witness of C7: the identities of the paths "/dev/hid0" and "/dev/hid1". -/
theorem distinct_identities_distinct_names_witness :
    sha1.Sum (ascii "/dev/hid0") ≠ sha1.Sum (ascii "/dev/hid1") ∧
    [temperatureName hid0, co2Name hid0, temperatureName hid1, co2Name hid1].Nodup :=
  ⟨by decide,
    (distinct_identities_distinct_names (sha1.Sum (ascii "/dev/hid0"))
      (sha1.Sum (ascii "/dev/hid1")) (by decide)).1⟩

/-- C8 as amended: when the name of a descriptor repeats the name of an
earlier one, `measure` never produces a binding set: the process ends during
setup (not on a `Read`), no `Read` is issued and a registry without duplicates
stays without duplicates.  When moreover the names before that descriptor are
pairwise different and new to the registry, and every `Open` up to and
including that descriptor's succeeds, the process ends at the registration of
that descriptor's temperature gauge, the registry holding exactly the names of
the earlier descriptors. -/
theorem name_collision_is_fatal {M F : Type} [Zero F] (T : Transport M F)
    (float64 : Int → F) (registry : List String) (earlier : List HidDeviceInfo)
    (device : HidDeviceInfo) (later : List HidDeviceInfo) (n : Nat)
    (hdup : temperatureName device ∈ metricNames earlier ∨
      co2Name device ∈ metricNames earlier) :
    (∃ e s, measure T float64 registry (earlier ++ device :: later) n = .exited e s ∧
      (∀ err, e ≠ .readFailed err) ∧ s.reads = 0 ∧ (∀ c ∈ s.trace, c.isRead = false) ∧
      (registry.Nodup → s.registry.Nodup)) ∧
    ((metricNames earlier).Nodup → (∀ x ∈ metricNames earlier, x ∉ registry) →
      (∀ (k : Nat) d, (earlier ++ [device])[k]? = some d → ∃ m, T.Open k d = .ok m) →
      ∃ s1, setup T earlier (Proc.start registry) = .running s1 ∧
        s1.registry = registry ++ metricNames earlier ∧
        s1.gauges.length = earlier.length ∧
        measure T float64 registry (earlier ++ device :: later) n =
          .exited (.registerFailed (temperatureName device))
            { s1 with
              opens := s1.opens + 1
              trace := s1.trace ++
                [Call.Open device, Call.Register (temperatureName device)] }) := by
  have hmem : temperatureName device ∈ metricNames earlier := by
    rcases hdup with h | h
    · exact h
    · exact co2Name_mem_metricNames device earlier h
  constructor
  · obtain ⟨e, s, h1, h2, h3, ⟨ext, h4, h5⟩, h6⟩ :=
      setup_exited_facts T (earlier ++ device :: later) (Proc.start registry)
        (fun s1 hs1 => by
          obtain ⟨-, hnd, -⟩ := setup_running_only_if T _ _ s1 hs1
          rw [metricNames_append] at hnd
          have hdisj := (List.nodup_append.mp hnd).2.2
          exact hdisj hmem (by simp [metricNames]))
    refine ⟨e, s, measure_of_setup_exited T float64 registry _ n e s h1, h2, h3, ?_, h6⟩
    intro c hc
    rw [h4] at hc
    exact h5 c (by simpa [Proc.start] using hc)
  · intro hnd hfresh hopen
    obtain ⟨s1, h1, h2, -, -, h5, h6⟩ := setup_running T earlier (Proc.start registry)
      (fun k d hk => by
        have hlt := getElem?_some_lt _ _ _ hk
        have := hopen k d (by rw [List.getElem?_append_left hlt]; exact hk)
        simpa [Proc.start] using this)
      hnd hfresh
    have ho : ∃ m, T.Open s1.opens device = .ok m := by
      have := hopen earlier.length device (by simp)
      rw [h6]
      simpa [Proc.start] using this
    obtain ⟨m, hm⟩ := ho
    have hreg : temperatureName device ∈ s1.registry := by
      rw [h5]; exact List.mem_append_right _ hmem
    refine ⟨s1, h1, h5, by simpa [Proc.start] using h2, ?_⟩
    apply measure_of_setup_exited
    rw [setup_append, h1]
    exact setup_cons_exited T s1 _ device later _
      (bindDevice_temperatureDup T s1 device m hm hreg)

/-- Witness of C8 as amended: the descriptor "/dev/hid0" enumerated twice on
a transport that opens every device. -/
theorem name_collision_is_fatal_witness :
    (temperatureName hid0 ∈ metricNames [hid0] ∨ co2Name hid0 ∈ metricNames [hid0]) ∧
    (∃ e s, measure steady ratOfInt [] ([hid0] ++ hid0 :: []) 1 = .exited e s ∧
      (∀ err, e ≠ .readFailed err) ∧ s.reads = 0 ∧ (∀ c ∈ s.trace, c.isRead = false) ∧
      (([] : List String).Nodup → s.registry.Nodup)) ∧
    ∃ s1, setup steady [hid0] (Proc.start []) = .running s1 ∧
      s1.registry = [] ++ metricNames [hid0] ∧
      s1.gauges.length = [hid0].length ∧
      measure steady ratOfInt [] ([hid0] ++ hid0 :: []) 1 =
        .exited (.registerFailed (temperatureName hid0))
          { s1 with
            opens := s1.opens + 1
            trace := s1.trace ++ [Call.Open hid0, Call.Register (temperatureName hid0)] } :=
  have hdup : temperatureName hid0 ∈ metricNames [hid0] ∨ co2Name hid0 ∈ metricNames [hid0] :=
    Or.inl (List.mem_cons_self _ _)
  have h := name_collision_is_fatal steady ratOfInt [] [hid0] hid0 [] 1 hdup
  ⟨hdup, h.1, h.2
    (by
      simp only [metricNames, List.nodup_cons, List.mem_singleton, List.not_mem_nil,
        not_false_eq_true, List.nodup_nil, and_true]
      exact temperatureName_ne_co2Name _ _)
    (fun _ _ => List.not_mem_nil _) (fun k _ _ => ⟨k, rfl⟩)⟩

/-- Counterexample to C8 as stated: the descriptor "/dev/hid0" enumerated
twice, so that the names collide, on a transport that opens no device.  The
process ends at the first `Open`; no registration is attempted, so it does not
end at the registration of the later descriptor. -/
theorem name_collision_counterexample :
    temperatureName ([hid0, hid0].getD 1 hid1) = temperatureName ([hid0, hid0].getD 0 hid1) ∧
    measure unplugged ratOfInt [] [hid0, hid0] 1 =
      .exited (.openFailed hid0.Path)
        { registry := [], gauges := [], opens := 1, reads := 0, trace := [Call.Open hid0] } ∧
    ¬ ∃ name s, measure unplugged ratOfInt [] [hid0, hid0] 1 =
      .exited (.registerFailed name) s := by
  have hm : measure unplugged ratOfInt [] [hid0, hid0] 1 =
      .exited (.openFailed hid0.Path)
        { registry := [], gauges := [], opens := 1, reads := 0, trace := [Call.Open hid0] } :=
    rfl
  refine ⟨rfl, hm, ?_⟩
  rintro ⟨name, s, h⟩
  rw [hm] at h
  cases h

/-- C9: with no descriptor, `measure` issues no call at all whatever the number
of iterations observed: the binding set is empty, no `Open`, `Register` or
`Read` is in the trace, the registry is as it was, and the process is still
running (also when the loop is followed one library call at a time). -/
theorem no_device_no_call {M F : Type} [Zero F] (T : Transport M F) (float64 : Int → F)
    (registry : List String) (n : Nat) :
    setup T [] (Proc.start registry) = .running (Proc.start registry) ∧
    measure T float64 registry [] n =
      .running { registry := registry, gauges := [], opens := 0, reads := 0, trace := [] } ∧
    run T float64 n ⟨.range 0, Proc.start registry⟩ = ⟨.range 0, Proc.start registry⟩ := by
  refine ⟨rfl, ?_, run_no_gauges T float64 _ rfl n⟩
  simp only [measure, setup]
  exact loop_no_gauges T float64 _ rfl n

/-- C10: whatever the transport path, both metric names are metric names for
Prometheus (so that a registry that does not hold them accepts them): each
starts with the letter m, consists of lowercase letters, digits and
underscores only, and has a fixed length, 66 for the temperature and 54 for
the CO2 gauge. -/
theorem metric_names_accepted (path : List Byte) :
    IsValidMetricName (temperatureOpts (sha1.Sum path)).Name = true ∧
    IsValidMetricName (co2Opts (sha1.Sum path)).Name = true ∧
    Register [] (temperatureOpts (sha1.Sum path)) =
      .ok [(temperatureOpts (sha1.Sum path)).Name] ∧
    Register [] (co2Opts (sha1.Sum path)) = .ok [(co2Opts (sha1.Sum path)).Name] ∧
    (temperatureOpts (sha1.Sum path)).Name.length = 66 ∧
    (co2Opts (sha1.Sum path)).Name.length = 54 ∧
    (temperatureOpts (sha1.Sum path)).Name.toList.head? = some 'm' ∧
    (co2Opts (sha1.Sum path)).Name.toList.head? = some 'm' ∧
    (∀ c ∈ (temperatureOpts (sha1.Sum path)).Name.toList,
      (c.isLower || c.isDigit || c == '_') = true) ∧
    (∀ c ∈ (co2Opts (sha1.Sum path)).Name.toList,
      (c.isLower || c.isDigit || c == '_') = true) := by
  refine ⟨temperatureName_valid _, co2Name_valid _,
    Register_fresh [] _ (temperatureName_valid _) (List.not_mem_nil _),
    Register_fresh [] _ (co2Name_valid _) (List.not_mem_nil _),
    temperatureName_length _, co2Name_length _, ?_, ?_,
    temperatureName_chars _, co2Name_chars _⟩
  · rw [String.toList, temperatureName_data]; rfl
  · rw [String.toList, co2Name_data]; rfl

end Co2monitor
